import Mathlib

/-!
Verification development for the agent-backport application.

The development shallowly embeds the two parts of the code base the claims
are about:

* the job record store (`src/lib/jobs.ts`): the in-memory `Map`-backed
  implementation (`createJob`, `getJob`, `updateJob`, `addJobLog`,
  `listJobs`) and the Upstash-Redis-backed implementation of the
  operations the claims refer to (`addJobLog`, `getJob`, `updateJob`,
  `createJob`, `listJobs`);
* the backport workflow (`backportPullRequest` and its step functions).

JavaScript `Date` values are modelled as natural numbers (epoch
milliseconds); the current time is passed explicitly to every operation
that calls `new Date()`.  A `Map<string, Job>` is modelled as an
association list in insertion order (`Map` iteration order), with
`Map.set` replacing the entry with the matching key in place.  The random
`generateJobId` is modelled by passing the generated id explicitly.
-/

namespace Backport

/-- `status` field of a job: `"pending" | "in_progress" | "completed" | "failed"`. -/
inductive JobStatus : Type
  | pending
  | in_progress
  | completed
  | failed
deriving DecidableEq, Repr, BEq

/-- The `BackportJob` interface from `src/lib/jobs.ts`.  The optional fields
`resultPR?` and `error?` are `Option`s; `logs` is the ordered list of
timestamped log lines. -/
structure BackportJob : Type where
  id : String
  repository : String
  installationId : Nat
  sourcePR : Nat
  targetBranch : String
  status : JobStatus
  createdAt : Nat
  updatedAt : Nat
  requestedBy : String
  commentId : Nat
  resultPR : Option Nat
  error : Option String
  logs : List String
deriving DecidableEq, Repr

/-- The job store: the contents of the `jobs` map, in insertion order. -/
abbrev Store := List BackportJob

/-- `jobs.get(id) || null`. -/
def getJob (s : Store) (id : String) : Option BackportJob :=
  s.find? (fun j => j.id == id)

/-- `jobs.set(id, job)`: replace the entry whose key matches, or append a
new entry.  (`Map` keys are unique, so at most one entry matches.) -/
def jobsSet : Store → BackportJob → Store
  | [], j => [j]
  | a :: s, j => if a.id == j.id then j :: s else a :: jobsSet s j

/-- The parameters of `createJob`:
`Omit<BackportJob, "id" | "status" | "createdAt" | "updatedAt" | "logs">`. -/
structure CreateParams : Type where
  repository : String
  installationId : Nat
  sourcePR : Nat
  targetBranch : String
  requestedBy : String
  commentId : Nat
deriving DecidableEq, Repr

/-- `createJob` (in-memory store): builds the job with `status = "pending"`,
`createdAt = updatedAt = now`, `logs = []`, stores it and returns it.
The generated id is the explicit argument `id`. -/
def createJob (s : Store) (p : CreateParams) (id : String) (now : Nat) :
    BackportJob × Store :=
  let j : BackportJob :=
    { id := id
      repository := p.repository
      installationId := p.installationId
      sourcePR := p.sourcePR
      targetBranch := p.targetBranch
      status := .pending
      createdAt := now
      updatedAt := now
      requestedBy := p.requestedBy
      commentId := p.commentId
      resultPR := none
      error := none
      logs := [] }
  (j, jobsSet s j)

/-- The `updates` argument of the in-memory `updateJob`:
`Partial<Omit<BackportJob, "id" | "createdAt">>`.  A field is `some v` when
the caller names it in the partial object and `none` otherwise (spread
semantics: a named field overrides the stored one). -/
structure JobUpdates : Type where
  repository : Option String := none
  installationId : Option Nat := none
  sourcePR : Option Nat := none
  targetBranch : Option String := none
  status : Option JobStatus := none
  updatedAt : Option Nat := none
  requestedBy : Option String := none
  commentId : Option Nat := none
  resultPR : Option Nat := none
  error : Option String := none
  logs : Option (List String) := none
deriving DecidableEq, Repr

/-- Spread semantics for an already-optional field (`resultPR?`, `error?`,
…): a named field overrides the stored value, an unnamed one keeps it. -/
def mergeOpt {α : Type} (upd : Option α) (old : Option α) : Option α :=
  match upd with
  | some v => some v
  | none => old

/-- `{ ...job, ...updates, updatedAt: new Date() }`: the merge performed by
`updateJob`.  `updatedAt` is written last, so it is `now` even if the
partial object names it. -/
def applyUpdates (j : BackportJob) (u : JobUpdates) (now : Nat) : BackportJob :=
  { id := j.id
    repository := u.repository.getD j.repository
    installationId := u.installationId.getD j.installationId
    sourcePR := u.sourcePR.getD j.sourcePR
    targetBranch := u.targetBranch.getD j.targetBranch
    status := u.status.getD j.status
    createdAt := j.createdAt
    updatedAt := now
    requestedBy := u.requestedBy.getD j.requestedBy
    commentId := u.commentId.getD j.commentId
    resultPR := mergeOpt u.resultPR j.resultPR
    error := mergeOpt u.error j.error
    logs := u.logs.getD j.logs }

/-- `updateJob` (in-memory store): returns `null` and leaves the map
untouched when the id is unknown, otherwise stores and returns the merged
record. -/
def updateJob (s : Store) (id : String) (u : JobUpdates) (now : Nat) :
    Option BackportJob × Store :=
  match getJob s id with
  | none => (none, s)
  | some j =>
    let j' := applyUpdates j u now
    (some j', jobsSet s j')

/-- The log line `` `[${new Date().toISOString()}] ${message}` ``, with the
timestamp rendered from the numeric clock. -/
def logLine (now : Nat) (message : String) : String :=
  "[" ++ toString now ++ "] " ++ message

/-- `addJobLog` (in-memory store): if the job exists, push the timestamped
line onto its `logs` and refresh `updatedAt`; otherwise do nothing. -/
def addJobLog (s : Store) (id : String) (message : String) (now : Nat) : Store :=
  match getJob s id with
  | none => s
  | some j =>
    jobsSet s { j with logs := j.logs ++ [logLine now message], updatedAt := now }

/-- The `options` argument of `listJobs`. -/
structure ListOptions : Type where
  repository : Option String := none
  status : Option JobStatus := none
  limit : Option Nat := none
deriving DecidableEq, Repr

/-- Comparator of the `createdAt`-descending sort:
`(a, b) => b.createdAt.getTime() - a.createdAt.getTime()` orders `a` before
`b` exactly when `b.createdAt ≤ a.createdAt`. -/
def createdAfter (a b : BackportJob) : Prop :=
  b.createdAt ≤ a.createdAt

instance : DecidableRel createdAfter := fun a b => Nat.decLe b.createdAt a.createdAt

instance : IsTotal BackportJob createdAfter :=
  ⟨fun a b => (Nat.le_total b.createdAt a.createdAt).elim Or.inl Or.inr⟩

instance : IsTrans BackportJob createdAfter :=
  ⟨fun _ _ _ h1 h2 => Nat.le_trans h2 h1⟩

/-- `listJobs` (in-memory store).  Note the JavaScript truthiness checks:
`if (options?.repository)` skips the filter for the empty string, and
`if (options?.limit)` skips the truncation for a limit of `0`.
`Array.prototype.sort` is stable; it is modelled by a stable insertion
sort with the same comparator. -/
def listJobs (s : Store) (o : ListOptions) : Store :=
  let r1 : Store :=
    match o.repository with
    | some rep => if rep = "" then s else s.filter (fun j => j.repository == rep)
    | none => s
  let r2 : Store :=
    match o.status with
    | some st => r1.filter (fun j => j.status == st)
    | none => r1
  let r3 := r2.insertionSort createdAfter
  match o.limit with
  | some l => if l = 0 then r3 else r3.take l
  | none => r3

/-! ### The Redis-backed store (second implementation in `src/lib/jobs.ts`)

The operations the claims refer to are embedded: `addJobLog` (an
`RPUSH` on the `job:<id>:logs` list plus an `HSET` of `updatedAt` on the
`job:<id>` hash), `getJob` (an `HGETALL` that treats a missing or empty
hash as `null`, plus an `LRANGE` of the logs), and — further below —
`updateJob`, `createJob` and `listJobs`.  Redis hashes hold string
fields; a fetched job is modelled as the raw field list paired with the
logs (`jobFromRedis` only revives the two date strings, which the claims
read through `fieldGet`). -/

/-- The relevant part of the Redis keyspace: hashes and lists, keyed by
string, in creation order. -/
structure RedisState : Type where
  hashes : List (String × List (String × String)) := []
  lists : List (String × List String) := []
deriving DecidableEq, Repr

/-- The field list stored under a key in a hash table. -/
def hashFields (hs : List (String × List (String × String))) (key : String) :
    List (String × String) :=
  ((hs.find? (fun h => h.1 == key)).map (fun h => h.2)).getD []

/-- `HGETALL key`, as consumed by the code: a missing hash and an empty
hash are both the empty field list. -/
def hgetall (st : RedisState) (key : String) : List (String × String) :=
  hashFields st.hashes key

/-- Upsert one field/value pair into a field list. -/
def upsertField : List (String × String) → String → String → List (String × String)
  | [], f, v => [(f, v)]
  | (g, w) :: t, f, v => if g == f then (f, v) :: t else (g, w) :: upsertField t f v

/-- `HSET key field value`: creates the hash when it does not exist. -/
def hsetField (st : RedisState) (key field value : String) : RedisState :=
  match st.hashes.find? (fun h => h.1 == key) with
  | some _ =>
    { st with
      hashes := st.hashes.map (fun h =>
        if h.1 == key then (h.1, upsertField h.2 field value) else h) }
  | none => { st with hashes := st.hashes ++ [(key, [(field, value)])] }

/-- `RPUSH key value`: creates the list when it does not exist. -/
def rpush (st : RedisState) (key value : String) : RedisState :=
  match st.lists.find? (fun l => l.1 == key) with
  | some _ =>
    { st with
      lists := st.lists.map (fun l => if l.1 == key then (l.1, l.2 ++ [value]) else l) }
  | none => { st with lists := st.lists ++ [(key, [value])] }

/-- `LRANGE key 0 -1`: a missing list reads as empty. -/
def lrangeAll (st : RedisState) (key : String) : List String :=
  ((st.lists.find? (fun l => l.1 == key)).map (fun l => l.2)).getD []

/-- The `job:` key of a job's hash. -/
def jobKey (id : String) : String := "job:" ++ id

/-- The `job:<id>:logs` key of a job's log list. -/
def jobLogsKey (id : String) : String := "job:" ++ id ++ ":logs"

/-- `addJobLog` (Redis store): unconditionally `RPUSH`es the timestamped
line and `HSET`s `updatedAt` on the job hash — there is no existence
check. -/
def addJobLogRedis (st : RedisState) (id message : String) (now : Nat) : RedisState :=
  let st1 := rpush st (jobLogsKey id) (logLine now message)
  hsetField st1 (jobKey id) "updatedAt" (toString now)

/-- `getJob` (Redis store): `null` exactly when the `HGETALL` of the job
hash comes back absent or empty; otherwise the (possibly partial) field
list joined with the logs. -/
def getJobRedis (st : RedisState) (id : String) :
    Option (List (String × String) × List String) :=
  let data := hgetall st (jobKey id)
  if data.isEmpty then none
  else some (data, lrangeAll st (jobLogsKey id))

/-- Upserting a field never produces an empty field list. -/
theorem upsertField_ne_nil :
    ∀ (l : List (String × String)) (f v : String), upsertField l f v ≠ [] := by
  intro l f v
  cases l with
  | nil => simp [upsertField]
  | cons a t =>
    rcases a with ⟨g, w⟩
    rw [upsertField]
    split <;> simp

/-- `HSET` rewrites the matching hash entry in place. -/
theorem find?_map_hset :
    ∀ (l : List (String × List (String × String))) (k f v : String)
      (p : String × List (String × String)),
      l.find? (fun h => h.1 == k) = some p →
      (l.map (fun h => if h.1 == k then (h.1, upsertField h.2 f v) else h)).find?
          (fun h => h.1 == k) = some (p.1, upsertField p.2 f v) := by
  intro l k f v
  induction l with
  | nil => intro p hp; cases hp
  | cons a t ih =>
    intro p hp
    by_cases ha : (a.1 == k) = true
    · rw [List.find?_cons_of_pos _ (by simpa using ha)] at hp
      obtain rfl := Option.some.inj hp
      rw [List.map_cons, if_pos ha, List.find?_cons_of_pos _ (by simpa using ha)]
    · have hb : (a.1 == k) = false := Bool.not_eq_true _ ▸ ha
      rw [List.find?_cons_of_neg _ (by simpa using hb)] at hp
      rw [List.map_cons, if_neg ha, List.find?_cons_of_neg _ (by simpa using hb)]
      exact ih p hp

/-- Reading a freshly appended hash entry. -/
theorem hashFields_append_new (hs : List (String × List (String × String)))
    (k : String) (fl : List (String × String))
    (hf : hs.find? (fun h => h.1 == k) = none) :
    hashFields (hs ++ [(k, fl)]) k = fl := by
  rw [hashFields, List.find?_append, hf]
  simp [List.find?]

/-- Reading the hash entry rewritten in place by an `HSET`. -/
theorem hashFields_map_hset (hs : List (String × List (String × String)))
    (k f v : String) (p : String × List (String × String))
    (hf : hs.find? (fun h => h.1 == k) = some p) :
    hashFields (hs.map (fun h => if h.1 == k then (h.1, upsertField h.2 f v) else h)) k =
      upsertField p.2 f v := by
  rw [hashFields, find?_map_hset hs k f v p hf]
  rfl

/-- After an `HSET`, the hash reads back nonempty. -/
theorem hgetall_hsetField_ne_nil (st : RedisState) (k f v : String) :
    hgetall (hsetField st k f v) k ≠ [] := by
  rw [hsetField]
  cases hf : st.hashes.find? (fun h => h.1 == k) with
  | none =>
    show hashFields (st.hashes ++ [(k, [(f, v)])]) k ≠ []
    rw [hashFields_append_new st.hashes k [(f, v)] hf]
    simp
  | some p =>
    show hashFields
        (st.hashes.map (fun h => if h.1 == k then (h.1, upsertField h.2 f v) else h)) k ≠ []
    rw [hashFields_map_hset st.hashes k f v p hf]
    exact upsertField_ne_nil p.2 f v

/-! ### Redis `updateJob`, `createJob` and `listJobs`

`updateJob` (Redis store) `HGETALL`s the job hash, returns `null` when the
hash is missing or empty, merges the partial update over the existing
fields with a fresh `updatedAt` (the JavaScript spread
`{...existing, ...updates, updatedAt}`), `HSET`s the merged record back —
the merged object carries every existing field, so the hash afterwards is
exactly the merged field map — and returns the merged record together
with the logs.  `createJob` (Redis store) `HSET`s the serialized job and
`ZADD`s `(score = creation time, member = id)` to the `jobs:all` index.
`listJobs` (Redis store) reads the index with `ZRANGE 0 -1 REV` (members
by score descending, ties by member descending), drops ids whose `getJob`
is `null` (missing or empty hash), applies the truthiness-guarded
repository filter and the status filter — the record fields compared are
the raw hash fields `repository` and `status`, which `jobFromRedis`
passes through unchanged — and slices to `options?.limit || 50` entries.
The content of the `jobs:all` sorted set is passed as an explicit
score/member list; dates are epoch milliseconds rendered with
`toString`. -/

/-- Field lookup in a hash field list: how a record built by object
spread reads a property. -/
def fieldGet (fl : List (String × String)) (f : String) : Option String :=
  (fl.find? (fun p => p.1 == f)).map (fun p => p.2)

/-- Upsert a field when the update names it; keep the list unchanged
otherwise. -/
def upsertOpt (fl : List (String × String)) (f : String) :
    Option String → List (String × String)
  | some v => upsertField fl f v
  | none => fl

/-- The wire form of a job status. -/
def statusToStr : JobStatus → String
  | .pending => "pending"
  | .in_progress => "in_progress"
  | .completed => "completed"
  | .failed => "failed"

/-- `Partial<Omit<BackportJob, "id" | "createdAt" | "logs">>`, the update
type of the Redis `updateJob`: every field optional; `id`, `createdAt`
and `logs` not expressible. -/
structure RedisJobUpdates : Type where
  repository : Option String := none
  installationId : Option Nat := none
  sourcePR : Option Nat := none
  targetBranch : Option String := none
  status : Option JobStatus := none
  updatedAt : Option Nat := none
  requestedBy : Option String := none
  commentId : Option Nat := none
  resultPR : Option Nat := none
  error : Option String := none
deriving DecidableEq, Repr

/-- `{...existing, ...updates, updatedAt: new Date().toISOString()}`: the
named update fields override the existing ones and `updatedAt` is
overridden last. -/
def mergedFields (existing : List (String × String)) (u : RedisJobUpdates)
    (now : Nat) : List (String × String) :=
  let fl := existing
  let fl := upsertOpt fl "repository" u.repository
  let fl := upsertOpt fl "installationId" (u.installationId.map toString)
  let fl := upsertOpt fl "sourcePR" (u.sourcePR.map toString)
  let fl := upsertOpt fl "targetBranch" u.targetBranch
  let fl := upsertOpt fl "status" (u.status.map statusToStr)
  let fl := upsertOpt fl "updatedAt" (u.updatedAt.map toString)
  let fl := upsertOpt fl "requestedBy" u.requestedBy
  let fl := upsertOpt fl "commentId" (u.commentId.map toString)
  let fl := upsertOpt fl "resultPR" (u.resultPR.map toString)
  let fl := upsertOpt fl "error" u.error
  upsertField fl "updatedAt" (toString now)

/-- `HSET key record` for a record that contains every current field of
the hash: the hash afterwards is exactly the record (created when
missing); a hash is identified with its field map. -/
def hsetRecord (st : RedisState) (key : String) (fl : List (String × String)) :
    RedisState :=
  match st.hashes.find? (fun h => h.1 == key) with
  | some _ =>
    { st with hashes := st.hashes.map (fun h => if h.1 == key then (h.1, fl) else h) }
  | none => { st with hashes := st.hashes ++ [(key, fl)] }

/-- `updateJob` (Redis store): `null` and no write when the job hash is
missing or empty; otherwise store the merged record and return it with
the logs. -/
def updateJobRedis (st : RedisState) (id : String) (u : RedisJobUpdates)
    (now : Nat) : Option (List (String × String) × List String) × RedisState :=
  let existing := hgetall st (jobKey id)
  if existing.isEmpty then (none, st)
  else
    let updated := mergedFields existing u now
    let st1 := hsetRecord st (jobKey id) updated
    (some (updated, lrangeAll st1 (jobLogsKey id)), st1)

/-- A raw field of a stored job, as `jobFromRedis` exposes it. -/
def jobField (st : RedisState) (id field : String) : Option String :=
  fieldGet (hgetall st (jobKey id)) field

/-- The descending order of `ZRANGE key 0 -1 REV` on a sorted set: higher
score first, ties by member descending. -/
def idxGE (a b : Nat × String) : Prop :=
  b.1 < a.1 ∨ (b.1 = a.1 ∧ b.2 ≤ a.2)

instance : DecidableRel idxGE := fun a b =>
  inferInstanceAs (Decidable (b.1 < a.1 ∨ (b.1 = a.1 ∧ b.2 ≤ a.2)))

instance : IsTotal (Nat × String) idxGE :=
  ⟨fun a b => by
    rcases Nat.lt_trichotomy a.1 b.1 with h | h | h
    · exact Or.inr (Or.inl h)
    · rcases le_total b.2 a.2 with hs | hs
      · exact Or.inl (Or.inr ⟨h.symm, hs⟩)
      · exact Or.inr (Or.inr ⟨h, hs⟩)
    · exact Or.inl (Or.inl h)⟩

instance : IsTrans (Nat × String) idxGE :=
  ⟨fun a b c hab hbc => by
    rcases hab with hab | ⟨hab1, hab2⟩
    · rcases hbc with hbc | ⟨hbc1, hbc2⟩
      · exact Or.inl (lt_trans hbc hab)
      · exact Or.inl (by rw [hbc1]; exact hab)
    · rcases hbc with hbc | ⟨hbc1, hbc2⟩
      · exact Or.inl (by rw [← hab1]; exact hbc)
      · exact Or.inr ⟨hbc1.trans hab1, le_trans hbc2 hab2⟩⟩

/-- `ZRANGE jobs:all 0 -1 REV`: the members, newest score first. -/
def zrangeRev (index : List (Nat × String)) : List String :=
  (index.insertionSort idxGE).map (fun p => p.2)

/-- `options?.limit || 50`: a limit of `0` and an absent limit both fall
back to `50`. -/
def effLimit : Option Nat → Nat
  | some n => if n = 0 then 50 else n
  | none => 50

/-- The filtered id sequence of the Redis `listJobs`, before the final
`slice(0, limit)`: index members newest first, ids whose job hash is
missing or empty dropped (`j !== null`), then the truthiness-guarded
repository filter and the status filter on the record fields. -/
def redisFilteredIds (index : List (Nat × String)) (st : RedisState)
    (rep : Option String) (stt : Option JobStatus) : List String :=
  let ids := zrangeRev index
  let ids := ids.filter (fun id => !(hgetall st (jobKey id)).isEmpty)
  let ids : List String :=
    match rep with
    | some r =>
      if r = "" then ids
      else ids.filter (fun id => jobField st id "repository" == some r)
    | none => ids
  match stt with
  | some t => ids.filter (fun id => jobField st id "status" == some (statusToStr t))
  | none => ids

/-- `listJobs` (Redis store): the records of the filtered ids, truncated
to `options?.limit || 50` entries (the early return on an empty index is
the general path specialised to the empty list). -/
def listJobsRedis (index : List (Nat × String)) (st : RedisState)
    (o : ListOptions) : List (List (String × String) × List String) :=
  ((redisFilteredIds index st o.repository o.status).take (effLimit o.limit)).map
    (fun id => (hgetall st (jobKey id), lrangeAll st (jobLogsKey id)))

/-- `createJob` (Redis store): `HSET` of the serialized job — `resultPR`
and `error` start `undefined`, hence absent — and `ZADD` of
`(creation time, id)` to the `jobs:all` index. -/
def createJobRedis (index : List (Nat × String)) (st : RedisState)
    (p : CreateParams) (id : String) (now : Nat) :
    List (Nat × String) × RedisState :=
  let fields : List (String × String) :=
    [("id", id), ("repository", p.repository),
     ("installationId", toString p.installationId),
     ("sourcePR", toString p.sourcePR),
     ("targetBranch", p.targetBranch), ("status", "pending"),
     ("createdAt", toString now), ("updatedAt", toString now),
     ("requestedBy", p.requestedBy), ("commentId", toString p.commentId)]
  (index ++ [(now, id)], hsetRecord st (jobKey id) fields)

/-- Looking up the field just upserted. -/
theorem fieldGet_upsert_same (fl : List (String × String)) (f v : String) :
    fieldGet (upsertField fl f v) f = some v := by
  induction fl with
  | nil => simp [upsertField, fieldGet, List.find?]
  | cons a t ih =>
    rcases a with ⟨g, w⟩
    rw [upsertField]
    by_cases hg : (g == f) = true
    · rw [if_pos hg]
      simp [fieldGet, List.find?]
    · rw [if_neg hg]
      rw [fieldGet, List.find?_cons_of_neg _ (by simpa using hg)]
      exact ih

/-- Looking up a different field after an upsert. -/
theorem fieldGet_upsert_ne (fl : List (String × String)) (f v q : String)
    (h : q ≠ f) :
    fieldGet (upsertField fl f v) q = fieldGet fl q := by
  induction fl with
  | nil =>
    rw [upsertField, fieldGet, fieldGet,
      List.find?_cons_of_neg _ (by simpa using Ne.symm h)]
  | cons a t ih =>
    rcases a with ⟨g, w⟩
    rw [upsertField]
    by_cases hg : (g == f) = true
    · rw [if_pos hg]
      have hgf : g = f := by simpa using hg
      subst hgf
      rw [fieldGet, fieldGet, List.find?_cons_of_neg _ (by simpa using Ne.symm h),
        List.find?_cons_of_neg _ (by simpa using Ne.symm h)]
    · rw [if_neg hg]
      by_cases hgq : (g == q) = true
      · rw [fieldGet, fieldGet, List.find?_cons_of_pos _ (by simpa using hgq),
          List.find?_cons_of_pos _ (by simpa using hgq)]
      · rw [fieldGet, fieldGet, List.find?_cons_of_neg _ (by simpa using hgq),
          List.find?_cons_of_neg _ (by simpa using hgq)]
        exact ih

/-- An unnamed optional upsert is the identity. -/
theorem upsertOpt_none (fl : List (String × String)) (f : String) :
    upsertOpt fl f none = fl := rfl

/-- Looking up the field upserted by a named optional update. -/
theorem fieldGet_upsertOpt_some (fl : List (String × String)) (f x : String) :
    fieldGet (upsertOpt fl f (some x)) f = some x :=
  fieldGet_upsert_same fl f x

/-- Looking up a different field after an optional upsert. -/
theorem fieldGet_upsertOpt_ne (fl : List (String × String)) (f : String)
    (v : Option String) (q : String) (h : q ≠ f) :
    fieldGet (upsertOpt fl f v) q = fieldGet fl q := by
  cases v with
  | none => rfl
  | some x => exact fieldGet_upsert_ne fl f x q h

/-- Replacing a hash entry in place. -/
theorem find?_map_replace (l : List (String × List (String × String)))
    (k : String) (fl : List (String × String))
    (p : String × List (String × String))
    (hf : l.find? (fun h => h.1 == k) = some p) :
    (l.map (fun h => if h.1 == k then (h.1, fl) else h)).find?
        (fun h => h.1 == k) = some (p.1, fl) := by
  induction l with
  | nil => cases hf
  | cons a t ih =>
    by_cases ha : (a.1 == k) = true
    · rw [List.find?_cons_of_pos _ (by simpa using ha)] at hf
      obtain rfl := Option.some.inj hf
      rw [List.map_cons, if_pos ha, List.find?_cons_of_pos _ (by simpa using ha)]
    · have hb : (a.1 == k) = false := Bool.not_eq_true _ ▸ ha
      rw [List.find?_cons_of_neg _ (by simpa using hb)] at hf
      rw [List.map_cons, if_neg ha, List.find?_cons_of_neg _ (by simpa using hb)]
      exact ih hf

/-- Replacing one hash entry leaves lookups of other keys unchanged. -/
theorem find?_map_replace_ne (l : List (String × List (String × String)))
    (k : String) (fl : List (String × String)) (q : String) (hq : q ≠ k) :
    (l.map (fun h => if h.1 == k then (h.1, fl) else h)).find?
        (fun h => h.1 == q) = l.find? (fun h => h.1 == q) := by
  induction l with
  | nil => rfl
  | cons a t ih =>
    rw [List.map_cons]
    by_cases ha : (a.1 == k) = true
    · rw [if_pos ha]
      have hak : a.1 = k := by simpa using ha
      have haq : a.1 ≠ q := by rw [hak]; exact Ne.symm hq
      rw [List.find?_cons_of_neg _ (by simpa using haq),
        List.find?_cons_of_neg _ (by simpa using haq)]
      exact ih
    · rw [if_neg ha]
      by_cases hq2 : (a.1 == q) = true
      · rw [List.find?_cons_of_pos _ (by simpa using hq2),
          List.find?_cons_of_pos _ (by simpa using hq2)]
      · rw [List.find?_cons_of_neg _ (by simpa using hq2),
          List.find?_cons_of_neg _ (by simpa using hq2)]
        exact ih

/-- Reading back the hash just written by `hsetRecord`. -/
theorem hgetall_hsetRecord_same (st : RedisState) (k : String)
    (fl : List (String × String)) :
    hgetall (hsetRecord st k fl) k = fl := by
  rw [hsetRecord]
  cases hf : st.hashes.find? (fun h => h.1 == k) with
  | none =>
    show hashFields (st.hashes ++ [(k, fl)]) k = fl
    exact hashFields_append_new st.hashes k fl hf
  | some p =>
    show hashFields (st.hashes.map (fun h => if h.1 == k then (h.1, fl) else h)) k = fl
    rw [hashFields, find?_map_replace st.hashes k fl p hf]
    rfl

/-- `hsetRecord` leaves every other hash unchanged. -/
theorem hgetall_hsetRecord_ne (st : RedisState) (k : String)
    (fl : List (String × String)) (q : String) (hq : q ≠ k) :
    hgetall (hsetRecord st k fl) q = hgetall st q := by
  rw [hsetRecord]
  cases hf : st.hashes.find? (fun h => h.1 == k) with
  | none =>
    show hashFields (st.hashes ++ [(k, fl)]) q = hashFields st.hashes q
    rw [hashFields, hashFields, List.find?_append]
    have h2 : List.find? (fun h => h.1 == q) [(k, fl)] = none := by
      rw [List.find?_cons_of_neg _ (by simpa using Ne.symm hq)]
      rfl
    rw [h2]
    cases st.hashes.find? (fun h => h.1 == q) <;> rfl
  | some p =>
    show hashFields (st.hashes.map (fun h => if h.1 == k then (h.1, fl) else h)) q =
      hashFields st.hashes q
    rw [hashFields, hashFields, find?_map_replace_ne st.hashes k fl q hq]

/-- `hsetRecord` does not touch the list keyspace. -/
theorem hsetRecord_lists (st : RedisState) (k : String)
    (fl : List (String × String)) :
    (hsetRecord st k fl).lists = st.lists := by
  rw [hsetRecord]
  cases st.hashes.find? (fun h => h.1 == k) <;> rfl

/-- `LRANGE` reads through `hsetRecord` unchanged. -/
theorem lrangeAll_hsetRecord (st : RedisState) (k : String)
    (fl : List (String × String)) (q : String) :
    lrangeAll (hsetRecord st k fl) q = lrangeAll st q := by
  rw [lrangeAll, lrangeAll, hsetRecord_lists]

/-- Field-level reading of the merged record `{...existing, ...updates,
updatedAt}`: `id` and `createdAt` cannot be named and read from
`existing`; `updatedAt` is refreshed; every other field reads from the
update when named and from `existing` otherwise. -/
theorem mergedFields_spec (existing : List (String × String))
    (u : RedisJobUpdates) (now : Nat) :
    fieldGet (mergedFields existing u now) "id" = fieldGet existing "id" ∧
    fieldGet (mergedFields existing u now) "createdAt" =
      fieldGet existing "createdAt" ∧
    fieldGet (mergedFields existing u now) "updatedAt" = some (toString now) ∧
    ((u.repository = none → fieldGet (mergedFields existing u now) "repository" =
        fieldGet existing "repository") ∧
      (∀ x, u.repository = some x →
        fieldGet (mergedFields existing u now) "repository" = some x)) ∧
    ((u.installationId = none → fieldGet (mergedFields existing u now) "installationId" =
        fieldGet existing "installationId") ∧
      (∀ x, u.installationId = some x →
        fieldGet (mergedFields existing u now) "installationId" = some (toString x))) ∧
    ((u.sourcePR = none → fieldGet (mergedFields existing u now) "sourcePR" =
        fieldGet existing "sourcePR") ∧
      (∀ x, u.sourcePR = some x →
        fieldGet (mergedFields existing u now) "sourcePR" = some (toString x))) ∧
    ((u.targetBranch = none → fieldGet (mergedFields existing u now) "targetBranch" =
        fieldGet existing "targetBranch") ∧
      (∀ x, u.targetBranch = some x →
        fieldGet (mergedFields existing u now) "targetBranch" = some x)) ∧
    ((u.status = none → fieldGet (mergedFields existing u now) "status" =
        fieldGet existing "status") ∧
      (∀ x, u.status = some x →
        fieldGet (mergedFields existing u now) "status" = some (statusToStr x))) ∧
    ((u.requestedBy = none → fieldGet (mergedFields existing u now) "requestedBy" =
        fieldGet existing "requestedBy") ∧
      (∀ x, u.requestedBy = some x →
        fieldGet (mergedFields existing u now) "requestedBy" = some x)) ∧
    ((u.commentId = none → fieldGet (mergedFields existing u now) "commentId" =
        fieldGet existing "commentId") ∧
      (∀ x, u.commentId = some x →
        fieldGet (mergedFields existing u now) "commentId" = some (toString x))) ∧
    ((u.resultPR = none → fieldGet (mergedFields existing u now) "resultPR" =
        fieldGet existing "resultPR") ∧
      (∀ x, u.resultPR = some x →
        fieldGet (mergedFields existing u now) "resultPR" = some (toString x))) ∧
    ((u.error = none → fieldGet (mergedFields existing u now) "error" =
        fieldGet existing "error") ∧
      (∀ x, u.error = some x →
        fieldGet (mergedFields existing u now) "error" = some x)) := by
  refine ⟨?_, ?_, ?_, ⟨fun h => ?_, fun x h => ?_⟩, ⟨fun h => ?_, fun x h => ?_⟩,
    ⟨fun h => ?_, fun x h => ?_⟩, ⟨fun h => ?_, fun x h => ?_⟩,
    ⟨fun h => ?_, fun x h => ?_⟩, ⟨fun h => ?_, fun x h => ?_⟩,
    ⟨fun h => ?_, fun x h => ?_⟩, ⟨fun h => ?_, fun x h => ?_⟩,
    ⟨fun h => ?_, fun x h => ?_⟩⟩ <;>
  first
    | simp [mergedFields, fieldGet_upsert_ne, fieldGet_upsertOpt_ne,
        fieldGet_upsert_same, fieldGet_upsertOpt_some, upsertOpt_none, h]
    | simp [mergedFields, fieldGet_upsert_ne, fieldGet_upsertOpt_ne,
        fieldGet_upsert_same, fieldGet_upsertOpt_some, upsertOpt_none]

/-- The index order read by the Redis `listJobs` is descending in the
score, which `createJob` sets to the creation time. -/
theorem sorted_idx_desc (index : List (Nat × String)) :
    List.Sorted (fun a b : Nat × String => b.1 ≤ a.1) (index.insertionSort idxGE) :=
  List.Pairwise.imp
    (fun hab => hab.elim (fun h1 => le_of_lt h1) (fun h1 => le_of_eq h1.1))
    (List.sorted_insertionSort idxGE index)

/-- Filtering never reorders: the filtered ids are a sublist of the
descending index read. -/
theorem redisFilteredIds_sublist (index : List (Nat × String)) (rst : RedisState)
    (rep : Option String) (stt : Option JobStatus) :
    List.Sublist (redisFilteredIds index rst rep stt) (zrangeRev index) := by
  rcases stt with - | t <;> rcases rep with - | r <;> simp only [redisFilteredIds]
  · exact List.filter_sublist _
  · by_cases hr : r = ""
    · rw [if_pos hr]
      exact List.filter_sublist _
    · rw [if_neg hr]
      exact (List.filter_sublist _).trans (List.filter_sublist _)
  · exact (List.filter_sublist _).trans (List.filter_sublist _)
  · by_cases hr : r = ""
    · rw [if_pos hr]
      exact (List.filter_sublist _).trans (List.filter_sublist _)
    · rw [if_neg hr]
      exact ((List.filter_sublist _).trans (List.filter_sublist _)).trans
        (List.filter_sublist _)

/-- Every id the Redis `listJobs` keeps passed all three filters. -/
theorem redisFilteredIds_mem (index : List (Nat × String)) (rst : RedisState)
    (rep : Option String) (stt : Option JobStatus) (id : String)
    (hid : id ∈ redisFilteredIds index rst rep stt) :
    (hgetall rst (jobKey id)).isEmpty = false ∧
    (∀ r, rep = some r → r ≠ "" → jobField rst id "repository" = some r) ∧
    (∀ t, stt = some t → jobField rst id "status" = some (statusToStr t)) := by
  rcases stt with - | t <;> rcases rep with - | r <;> simp only [redisFilteredIds] at hid
  · obtain ⟨h1, h2⟩ := List.mem_filter.mp hid
    refine ⟨by simpa using h2, ?_, ?_⟩
    · intro r hr
      cases hr
    · intro t ht
      cases ht
  · by_cases hr : r = ""
    · rw [if_pos hr] at hid
      obtain ⟨h1, h2⟩ := List.mem_filter.mp hid
      refine ⟨by simpa using h2, ?_, ?_⟩
      · intro r2 hr2 hne
        obtain rfl := Option.some.inj hr2
        exact absurd hr hne
      · intro t ht
        cases ht
    · rw [if_neg hr] at hid
      obtain ⟨h1, h2⟩ := List.mem_filter.mp hid
      obtain ⟨h3, h4⟩ := List.mem_filter.mp h1
      refine ⟨by simpa using h4, ?_, ?_⟩
      · intro r2 hr2 hne
        obtain rfl := Option.some.inj hr2
        simpa using h2
      · intro t ht
        cases ht
  · obtain ⟨h1, h2⟩ := List.mem_filter.mp hid
    obtain ⟨h3, h4⟩ := List.mem_filter.mp h1
    refine ⟨by simpa using h4, ?_, ?_⟩
    · intro r hr
      cases hr
    · intro t2 ht2
      obtain rfl := Option.some.inj ht2
      simpa using h2
  · obtain ⟨h1, h2⟩ := List.mem_filter.mp hid
    by_cases hr : r = ""
    · rw [if_pos hr] at h1
      obtain ⟨h3, h4⟩ := List.mem_filter.mp h1
      refine ⟨by simpa using h4, ?_, ?_⟩
      · intro r2 hr2 hne
        obtain rfl := Option.some.inj hr2
        exact absurd hr hne
      · intro t2 ht2
        obtain rfl := Option.some.inj ht2
        simpa using h2
    · rw [if_neg hr] at h1
      obtain ⟨h3, h4⟩ := List.mem_filter.mp h1
      obtain ⟨h5, h6⟩ := List.mem_filter.mp h3
      refine ⟨by simpa using h6, ?_, ?_⟩
      · intro r2 hr2 hne
        obtain rfl := Option.some.inj hr2
        simpa using h4
      · intro t2 ht2
        obtain rfl := Option.some.inj ht2
        simpa using h2

/-! ### The backport workflow (`backportPullRequest` and its steps)

The workflow function is annotated `"use workflow"` and each step function
`"use step"`; the runtime implementing those annotations (the `workflow`
package) is not part of this repository.  Its semantics — durable recording
of step results, replay without re-invoking recorded steps, bounded retry
of transient errors, immediate abort on `FatalError` — is modelled from the
spec (sections 4.2 and 4.3) as the interpreter `exec` below.  The step
bodies themselves, the order in which the orchestrator runs them, the
messages it logs and the job updates it performs are translated from the
source.

The source-control collaborator (Octokit) is an oracle `Env`: for each
external call it gives the response of the `i`-th attempt.  A step body is
a function from the attempt index and the observable world (reactions,
comments and PRs created so far) to an outcome and a new world. -/

/-- A thrown step error: `FatalError` from the `workflow` package, or any
other (hence retryable) error.  Both carry `error.message`. -/
inductive StepError : Type
  | fatal (msg : String)
  | transient (msg : String)
deriving DecidableEq, Repr

/-- `error instanceof Error ? error.message : "Unknown error"`. -/
def StepError.message : StepError → String
  | .fatal m => m
  | .transient m => m

/-- The result value of `performBackport`:
`{ success: boolean; branch?: string; error?: string }`. -/
structure PerformResult : Type where
  success : Bool
  branch : Option String
  error : Option String
deriving DecidableEq, Repr

/-- One entry of `commits.map(c => ({ sha: c.sha, message: c.commit.message }))`. -/
structure Commit : Type where
  sha : String
  message : String
deriving DecidableEq, Repr

/-- The record returned by the `fetchPRDetails` step.  The diff text is
represented as its list of lines (the analysis step counts the lines
matching `/^diff --git/gm`). -/
structure PRDetails : Type where
  title : String
  body : Option String
  baseBranch : String
  headBranch : String
  headSha : String
  commits : List Commit
  merged : Bool
  mergeCommitSha : Option String
  diff : List String
deriving DecidableEq, Repr

/-- The record returned by the `analyzeChanges` step. -/
structure Analysis : Type where
  complexity : String
  filesChanged : Nat
  potentialConflicts : List String
  recommendations : List String
deriving DecidableEq, Repr

/-- `analyzeChanges`: counts `diff --git` lines and classifies the
complexity; pure computation, no network. -/
def analyzeChanges (prDetails : PRDetails) : Analysis :=
  let filesChanged := (prDetails.diff.filter (fun l => l.startsWith "diff --git")).length
  { complexity :=
      if filesChanged > 10 then "high" else if filesChanged > 3 then "medium" else "low"
    filesChanged := filesChanged
    potentialConflicts := []
    recommendations := [] }

/-- The `BackportResult` returned by `backportPullRequest`. -/
structure BackportResult : Type where
  success : Bool
  resultPR : Option Nat := none
  error : Option String := none
deriving DecidableEq, Repr

/-- The `BackportParams` argument of `backportPullRequest`. -/
structure BackportParams : Type where
  jobId : String
  installationId : Nat
  repository : String
  prNumber : Nat
  targetBranch : String
  commentId : Nat
deriving DecidableEq, Repr

/-- The collaborator oracle: the response of the `i`-th attempt of each
external operation.  `perform` is the opaque sandbox/git step; per the spec
it yields a value, never throws. -/
structure Env : Type where
  ack : Nat → Except StepError Unit
  fetch : Nat → Except StepError PRDetails
  getBranch : Nat → Except StepError Unit
  perform : Nat → PerformResult
  createPR : Nat → Except StepError Nat
  successComment : Nat → Except StepError Unit
  failureComment : Nat → Except StepError Unit

/-- The names of the orchestrator's steps (`§4.4`). -/
inductive StepId : Type
  | ack
  | fetch
  | validate
  | analyze
  | perform
  | createPR
  | reportSuccess
  | reportFailure
deriving DecidableEq, Repr

/-- A step result value (the step results are heterogeneous). -/
inductive Val : Type
  | unit
  | pr (d : PRDetails)
  | analysis (a : Analysis)
  | perf (r : PerformResult)
  | num (n : Nat)
deriving DecidableEq, Repr

/-- Read a `PRDetails` result. -/
def Val.asPR : Val → PRDetails
  | .pr d => d
  | _ => ⟨"", none, "", "", "", [], false, none, []⟩

/-- Read an `Analysis` result. -/
def Val.asAnalysis : Val → Analysis
  | .analysis a => a
  | _ => ⟨"", 0, [], []⟩

/-- Read a `PerformResult`. -/
def Val.asPerf : Val → PerformResult
  | .perf r => r
  | _ => ⟨false, none, none⟩

/-- Read a PR number. -/
def Val.asNum : Val → Nat
  | .num n => n
  | _ => 0

/-- The observable side effects on the source-control collaborator:
reactions created (comment id, content), issue comments created
(issue number, body), and pull requests created
(title, head, base, body). -/
structure World : Type where
  reactions : List (Nat × String) := []
  comments : List (Nat × String) := []
  prsCreated : List (String × String × String × String) := []
deriving DecidableEq, Repr

/-- How many times each step's body has been invoked (one increment per
attempt).  Maintained by the engine model, used by the replay and retry
claims. -/
structure Counts : Type where
  ack : Nat := 0
  fetch : Nat := 0
  validate : Nat := 0
  analyze : Nat := 0
  perform : Nat := 0
  createPR : Nat := 0
  reportSuccess : Nat := 0
  reportFailure : Nat := 0
deriving DecidableEq, Repr

/-- Look up a step's invocation count. -/
def Counts.get (c : Counts) : StepId → Nat
  | .ack => c.ack
  | .fetch => c.fetch
  | .validate => c.validate
  | .analyze => c.analyze
  | .perform => c.perform
  | .createPR => c.createPR
  | .reportSuccess => c.reportSuccess
  | .reportFailure => c.reportFailure

/-- Add `n` invocations to a step's count. -/
def Counts.bump (c : Counts) (sid : StepId) (n : Nat) : Counts :=
  match sid with
  | .ack => { c with ack := c.ack + n }
  | .fetch => { c with fetch := c.fetch + n }
  | .validate => { c with validate := c.validate + n }
  | .analyze => { c with analyze := c.analyze + n }
  | .perform => { c with perform := c.perform + n }
  | .createPR => { c with createPR := c.createPR + n }
  | .reportSuccess => { c with reportSuccess := c.reportSuccess + n }
  | .reportFailure => { c with reportFailure := c.reportFailure + n }

instance {ε α : Type} [DecidableEq ε] [DecidableEq α] : DecidableEq (Except ε α) := fun x y =>
  match x, y with
  | .ok a, .ok b =>
    if h : a = b then isTrue (by rw [h]) else isFalse (fun hh => h (Except.ok.inj hh))
  | .error a, .error b =>
    if h : a = b then isTrue (by rw [h]) else isFalse (fun hh => h (Except.error.inj hh))
  | .ok _, .error _ => isFalse (fun hh => Except.noConfusion hh)
  | .error _, .ok _ => isFalse (fun hh => Except.noConfusion hh)

/-- The durable step-result table of one run.

Modelled from the spec: `§4.2` — on first execution the step's result (its
return value, or its thrown failure classification) is persisted keyed by
the step name; a recorded step is never re-invoked. -/
structure StepCache : Type where
  ack : Option (Except StepError Val) := none
  fetch : Option (Except StepError Val) := none
  validate : Option (Except StepError Val) := none
  analyze : Option (Except StepError Val) := none
  perform : Option (Except StepError Val) := none
  createPR : Option (Except StepError Val) := none
  reportSuccess : Option (Except StepError Val) := none
  reportFailure : Option (Except StepError Val) := none
deriving DecidableEq, Repr

/-- Look up a recorded step result. -/
def StepCache.get (c : StepCache) : StepId → Option (Except StepError Val)
  | .ack => c.ack
  | .fetch => c.fetch
  | .validate => c.validate
  | .analyze => c.analyze
  | .perform => c.perform
  | .createPR => c.createPR
  | .reportSuccess => c.reportSuccess
  | .reportFailure => c.reportFailure

/-- Record a step result. -/
def StepCache.set (c : StepCache) (sid : StepId) (r : Except StepError Val) : StepCache :=
  match sid with
  | .ack => { c with ack := some r }
  | .fetch => { c with fetch := some r }
  | .validate => { c with validate := some r }
  | .analyze => { c with analyze := some r }
  | .perform => { c with perform := some r }
  | .createPR => { c with createPR := some r }
  | .reportSuccess => { c with reportSuccess := some r }
  | .reportFailure => { c with reportFailure := some r }

/-- A store operation performed by workflow code (not itself a step):
`addJobLog` or `updateJob`. -/
inductive StoreOp : Type
  | log (id : String) (msg : String)
  | update (id : String) (u : JobUpdates)
deriving DecidableEq, Repr

/-- Apply one store operation. -/
def applyOp (s : Store) (now : Nat) : StoreOp → Store
  | .log id msg => addJobLog s id msg now
  | .update id u => (updateJob s id u now).2

/-- Apply a sequence of store operations, oldest first. -/
def applyOps (s : Store) (now : Nat) (ops : List StoreOp) : Store :=
  ops.foldl (fun t op => applyOp t now op) s

/-- The type of a step body: attempt index and world in, outcome and world
out. -/
abbrev StepBody := Nat → World → Except StepError Val × World

/-- The workflow program: straight-line workflow code (store operations and
the final return/throw) interleaved with step dispatches, each carrying its
success continuation and the surrounding `catch` as error continuation. -/
inductive Prog : Type
  | done (r : Except String BackportResult)
  | store (op : StoreOp) (k : Prog)
  | step (sid : StepId) (body : StepBody) (onOk : Val → Prog) (onErr : StepError → Prog)

/-- The outcome of driving a run: the workflow returned or threw, or the
process was interrupted at a step boundary. -/
inductive Out : Type
  | finished (r : Except String BackportResult)
  | interrupted
deriving Repr

/-- The configuration after driving a run: its outcome, the durable step
table, the per-step invocation counts, the collaborator world, and the
store operations the workflow code performed, oldest first. -/
structure ExecRes : Type where
  out : Out
  cache : StepCache
  counts : Counts
  world : World
  ops : List StoreOp

/-- Modelled from the spec: the engine's retry policy (`§4.3`) at one step
dispatch — invoke the body; a transient error is retried (the backoff
sleeps are irrelevant to the recorded behaviour) until the attempt ceiling
`fuel` is exhausted, a `FatalError` or a success stops immediately.
Returns the final outcome, the world after all attempts, and the number of
attempts made. -/
def retryLoop (body : StepBody) : Nat → Nat → World → Except StepError Val × World × Nat
  | 0, _, w => (.error (.transient "retry budget exhausted"), w, 0)
  | fuel + 1, i, w =>
    match body i w with
    | (.ok v, w') => (.ok v, w', 1)
    | (.error (.fatal m), w') => (.error (.fatal m), w', 1)
    | (.error (.transient m), w') =>
      if fuel = 0 then (.error (.transient m), w', 1)
      else
        let r := retryLoop body fuel (i + 1) w'
        (r.1, r.2.1, r.2.2 + 1)

/-- Modelled from the spec: the Step Executor and Workflow Engine (`§4.2`,
`§4.3`).  `exec ceiling prog cache counts world intr` drives the program:

* a step dispatch first consults the durable table; a recorded result is
  returned without invoking the body (and without incrementing its count);
* on a miss the body runs under the retry policy and its final outcome is
  persisted;
* `intr = some k` simulates a process interruption at the `k`-th step
  boundary (counting every dispatch): the run stops there with
  `Out.interrupted`, keeping the durable table, counts and world. -/
def exec (ceiling : Nat) : Prog → StepCache → Counts → World → Option Nat → ExecRes
  | .done r, c, cnt, w, _ => ⟨.finished r, c, cnt, w, []⟩
  | .store op k, c, cnt, w, intr =>
    let r := exec ceiling k c cnt w intr
    { r with ops := op :: r.ops }
  | .step sid body onOk onErr, c, cnt, w, intr =>
    if intr = some 0 then ⟨.interrupted, c, cnt, w, []⟩
    else
      let intr' := intr.map (fun n => n - 1)
      match c.get sid with
      | some (.ok v) => exec ceiling (onOk v) c cnt w intr'
      | some (.error e) => exec ceiling (onErr e) c cnt w intr'
      | none =>
        match retryLoop body ceiling 0 w with
        | (.ok v, w', n) =>
          exec ceiling (onOk v) (c.set sid (.ok v)) (cnt.bump sid n) w' intr'
        | (.error e, w', n) =>
          exec ceiling (onErr e) (c.set sid (.error e)) (cnt.bump sid n) w' intr'

/-! ### The step bodies (translated from the step functions in the source) -/

/-- `acknowledgeRequest`: create an `"eyes"` reaction on the triggering
comment. -/
def ackBody (env : Env) (commentId : Nat) : StepBody := fun i w =>
  match env.ack i with
  | .ok _ => (.ok .unit, { w with reactions := w.reactions ++ [(commentId, "eyes")] })
  | .error e => (.error e, w)

/-- `fetchPRDetails`: read-only retrieval of the PR record, commit list and
diff. -/
def fetchBody (env : Env) : StepBody := fun i w =>
  match env.fetch i with
  | .ok d => (.ok (.pr d), w)
  | .error e => (.error e, w)

/-- `validateTargetBranch`: wraps `repos.getBranch` in a `try`/`catch`
whose `catch` turns every failure — of either classification — into
`new FatalError("Target branch '<branch>' does not exist")`. -/
def validateBody (env : Env) (targetBranch : String) : StepBody := fun i w =>
  match env.getBranch i with
  | .ok _ => (.ok .unit, w)
  | .error _ =>
    (.error (.fatal ("Target branch \x27" ++ targetBranch ++ "\x27 does not exist")), w)

/-- `analyzeChanges` as a step: pure computation over the fetched details. -/
def analyzeBody (d : PRDetails) : StepBody := fun _ w =>
  (.ok (.analysis (analyzeChanges d)), w)

/-- `performBackport` as a step: opaque sandbox/git execution yielding a
`PerformResult` value (never a thrown failure). -/
def performBody (env : Env) : StepBody := fun i w =>
  (.ok (.perf (env.perform i)), w)

/-- The title of the backport PR. -/
def backportPRTitle (targetBranch : String) (sourcePR : Nat) : String :=
  "[Backport " ++ targetBranch ++ "] Changes from #" ++ toString sourcePR

/-- The body of the backport PR. -/
def backportPRBody (sourcePR : Nat) (targetBranch : String) : String :=
  "This is an automated backport of #" ++ toString sourcePR ++ " to \x60" ++
    targetBranch ++ "\x60.\n\nCreated by agent-backport."

/-- `createBackportPR`: `pulls.create` from the candidate branch against
the target branch; returns the new PR number. -/
def createPRBody (env : Env) (sourcePR : Nat) (targetBranch backportBranch : String) :
    StepBody := fun i w =>
  match env.createPR i with
  | .ok n =>
    (.ok (.num n),
      { w with
        prsCreated := w.prsCreated ++
          [(backportPRTitle targetBranch sourcePR, backportBranch, targetBranch,
            backportPRBody sourcePR targetBranch)] })
  | .error e => (.error e, w)

/-- The success comment body posted by `reportSuccess`. -/
def successCommentBody (targetBranch : String) (resultPR : Nat) : String :=
  "✅ Successfully backported to \x60" ++ targetBranch ++ "\x60!\n\nSee #" ++
    toString resultPR

/-- `reportSuccess`: post the success comment on the source PR. -/
def reportSuccessBody (env : Env) (prNumber : Nat) (targetBranch : String)
    (resultPR : Nat) : StepBody := fun i w =>
  match env.successComment i with
  | .ok _ =>
    (.ok .unit,
      { w with comments := w.comments ++ [(prNumber, successCommentBody targetBranch resultPR)] })
  | .error e => (.error e, w)

/-- The failure comment body posted by `reportFailure`.  The error is
interpolated into a template literal, so an `undefined` error renders as
the string `"undefined"`. -/
def failureCommentBody (targetBranch errorMsg : String) : String :=
  "❌ Failed to backport to \x60" ++ targetBranch ++ "\x60.\n\n**Error:** " ++
    errorMsg ++ "\n\nPlease try backporting manually."

/-- `reportFailure`: post the failure comment on the source PR. -/
def reportFailureBody (env : Env) (prNumber : Nat) (targetBranch errorMsg : String) :
    StepBody := fun i w =>
  match env.failureComment i with
  | .ok _ =>
    (.ok .unit,
      { w with comments := w.comments ++ [(prNumber, failureCommentBody targetBranch errorMsg)] })
  | .error e => (.error e, w)

/-! ### The orchestrator (`backportPullRequest`) -/

/-- The `catch` block of `backportPullRequest`: log the error, set the job
to `failed` with the error message, and re-throw. -/
def catchProg (jobId msg : String) : Prog :=
  .store (.log jobId ("Workflow error: " ++ msg))
    (.store (.update jobId { status := some .failed, error := some msg })
      (.done (.error msg)))

/-- The tail of the success branch of step 6: create the result PR, post
the success comment, mark the job `completed` with `resultPR` and return
`{ success: true, resultPR }`. -/
def successBranch (env : Env) (p : BackportParams) (branch : String) : Prog :=
  .store (.log p.jobId "Backport successful, creating PR...")
    (.step .createPR (createPRBody env p.prNumber p.targetBranch branch)
      (fun nv =>
        let n := nv.asNum
        .step .reportSuccess (reportSuccessBody env p.prNumber p.targetBranch n)
          (fun _ =>
            .store (.update p.jobId { status := some .completed, resultPR := some n })
              (.store (.log p.jobId ("Backport PR created: #" ++ toString n))
                (.done (.ok { success := true, resultPR := some n }))))
          (fun e => catchProg p.jobId e.message))
      (fun e => catchProg p.jobId e.message))

/-- The failure branch of step 6: log the business failure, post the
failure comment, mark the job `failed` with the step's error value and
return `{ success: false, error }`.  (`${backportResult.error}` and
`backportResult.error!` both render a missing error as `"undefined"` at
runtime.) -/
def failureBranch (env : Env) (p : BackportParams) (err : Option String) : Prog :=
  .store (.log p.jobId ("Backport failed: " ++ err.getD "undefined"))
    (.step .reportFailure (reportFailureBody env p.prNumber p.targetBranch (err.getD "undefined"))
      (fun _ =>
        .store (.update p.jobId { status := some .failed, error := err })
          (.done (.ok { success := false, error := err })))
      (fun e => catchProg p.jobId e.message))

/-- Step 5 (`performBackport`) and the step-6 branch on its value.  On the
success path the candidate branch is read with `backportResult.branch!`;
a missing branch (a runtime `undefined`) is modelled by the placeholder
string `"undefined"`. -/
def performStage (env : Env) (p : BackportParams) : Prog :=
  .step .perform (performBody env)
    (fun pv =>
      let r := pv.asPerf
      if r.success then successBranch env p (r.branch.getD "undefined")
      else failureBranch env p r.error)
    (fun e => catchProg p.jobId e.message)

/-- Step 4 (`analyzeChanges`) and the workflow code after it. -/
def analyzeStage (env : Env) (p : BackportParams) (d : PRDetails) : Prog :=
  .step .analyze (analyzeBody d)
    (fun av =>
      .store (.log p.jobId ("Analysis complete. Complexity: " ++ av.asAnalysis.complexity))
        (.store (.log p.jobId "Performing backport in sandbox...")
          (performStage env p)))
    (fun e => catchProg p.jobId e.message)

/-- Step 3 (`validateTargetBranch`) and the workflow code after it. -/
def validateStage (env : Env) (p : BackportParams) (d : PRDetails) : Prog :=
  .step .validate (validateBody env p.targetBranch)
    (fun _ =>
      .store (.log p.jobId "Target branch exists")
        (.store (.log p.jobId "Analyzing changes...")
          (analyzeStage env p d)))
    (fun e => catchProg p.jobId e.message)

/-- Step 2 (`fetchPRDetails`) and the workflow code after it. -/
def fetchStage (env : Env) (p : BackportParams) : Prog :=
  .step .fetch (fetchBody env)
    (fun dv =>
      let d := dv.asPR
      .store (.log p.jobId ("PR title: " ++ d.title))
        (.store (.log p.jobId ("Commits: " ++ toString d.commits.length))
          (.store (.log p.jobId ("Validating target branch: " ++ p.targetBranch))
            (validateStage env p d))))
    (fun e => catchProg p.jobId e.message)

/-- `backportPullRequest` as a workflow program: the exact step sequence,
log lines, job updates and control flow of the source. -/
def orchestrator (env : Env) (p : BackportParams) : Prog :=
  .step .ack (ackBody env p.commentId)
    (fun _ =>
      .store (.log p.jobId "Request acknowledged")
        (.store (.log p.jobId "Fetching PR details...")
          (fetchStage env p)))
    (fun e => catchProg p.jobId e.message)

/-! ### Generic lemmas about the engine model -/

theorem StepCache.get_set_same (c : StepCache) (sid : StepId) (r : Except StepError Val) :
    (c.set sid r).get sid = some r := by
  cases sid <;> rfl

theorem StepCache.get_set_ne (c : StepCache) (sid sid' : StepId) (r : Except StepError Val)
    (h : sid' ≠ sid) : (c.set sid r).get sid' = c.get sid' := by
  cases sid <;> cases sid' <;> simp_all [StepCache.set, StepCache.get]

theorem Counts.get_bump_same (c : Counts) (sid : StepId) (n : Nat) :
    (c.bump sid n).get sid = c.get sid + n := by
  cases sid <;> rfl

theorem Counts.get_bump_ne (c : Counts) (sid sid' : StepId) (n : Nat)
    (h : sid' ≠ sid) : (c.bump sid n).get sid' = c.get sid' := by
  cases sid <;> cases sid' <;> simp_all [Counts.bump, Counts.get]

theorem exec_done (ceiling : Nat) (r : Except String BackportResult) (c : StepCache)
    (cnt : Counts) (w : World) (i : Option Nat) :
    exec ceiling (.done r) c cnt w i = ⟨.finished r, c, cnt, w, []⟩ := rfl

theorem exec_store (ceiling : Nat) (op : StoreOp) (k : Prog) (c : StepCache)
    (cnt : Counts) (w : World) (i : Option Nat) :
    exec ceiling (.store op k) c cnt w i =
      { exec ceiling k c cnt w i with ops := op :: (exec ceiling k c cnt w i).ops } := rfl

theorem exec_step_zero (ceiling : Nat) (sid : StepId) (body : StepBody)
    (onOk : Val → Prog) (onErr : StepError → Prog) (c : StepCache) (cnt : Counts)
    (w : World) :
    exec ceiling (.step sid body onOk onErr) c cnt w (some 0) =
      ⟨.interrupted, c, cnt, w, []⟩ := by
  simp [exec]

theorem exec_step_hit_ok (ceiling : Nat) (sid : StepId) (body : StepBody)
    (onOk : Val → Prog) (onErr : StepError → Prog) (c : StepCache) (cnt : Counts)
    (w : World) (i : Option Nat) (v : Val)
    (hi : i ≠ some 0) (h : c.get sid = some (.ok v)) :
    exec ceiling (.step sid body onOk onErr) c cnt w i =
      exec ceiling (onOk v) c cnt w (i.map (fun n => n - 1)) := by
  rw [exec, if_neg hi, h]

theorem exec_step_hit_err (ceiling : Nat) (sid : StepId) (body : StepBody)
    (onOk : Val → Prog) (onErr : StepError → Prog) (c : StepCache) (cnt : Counts)
    (w : World) (i : Option Nat) (e : StepError)
    (hi : i ≠ some 0) (h : c.get sid = some (.error e)) :
    exec ceiling (.step sid body onOk onErr) c cnt w i =
      exec ceiling (onErr e) c cnt w (i.map (fun n => n - 1)) := by
  rw [exec, if_neg hi, h]

theorem exec_step_miss_ok (ceiling : Nat) (sid : StepId) (body : StepBody)
    (onOk : Val → Prog) (onErr : StepError → Prog) (c : StepCache) (cnt : Counts)
    (w : World) (i : Option Nat) (v : Val) (w' : World) (n : Nat)
    (hi : i ≠ some 0) (h : c.get sid = none)
    (hr : retryLoop body ceiling 0 w = (.ok v, w', n)) :
    exec ceiling (.step sid body onOk onErr) c cnt w i =
      exec ceiling (onOk v) (c.set sid (.ok v)) (cnt.bump sid n) w'
        (i.map (fun n => n - 1)) := by
  rw [exec, if_neg hi, h, hr]

theorem exec_step_miss_err (ceiling : Nat) (sid : StepId) (body : StepBody)
    (onOk : Val → Prog) (onErr : StepError → Prog) (c : StepCache) (cnt : Counts)
    (w : World) (i : Option Nat) (e : StepError) (w' : World) (n : Nat)
    (hi : i ≠ some 0) (h : c.get sid = none)
    (hr : retryLoop body ceiling 0 w = (.error e, w', n)) :
    exec ceiling (.step sid body onOk onErr) c cnt w i =
      exec ceiling (onErr e) (c.set sid (.error e)) (cnt.bump sid n) w'
        (i.map (fun n => n - 1)) := by
  rw [exec, if_neg hi, h, hr]

/-- Once recorded, a step result stays recorded unchanged: `exec` inserts
into the durable table only on a miss and never deletes. -/
theorem cacheMono (ceiling : Nat) :
    ∀ (prog : Prog) (c : StepCache) (cnt : Counts) (w : World) (i : Option Nat)
      (sid : StepId) (r : Except StepError Val),
      c.get sid = some r → (exec ceiling prog c cnt w i).cache.get sid = some r := by
  intro prog
  induction prog with
  | done r' =>
    intro c cnt w i sid r h
    simpa [exec_done] using h
  | store op k ih =>
    intro c cnt w i sid r h
    rw [exec_store]
    exact ih c cnt w i sid r h
  | step sid' body onOk onErr ihOk ihErr =>
    intro c cnt w i sid r h
    by_cases hi : i = some 0
    · subst hi; simpa [exec_step_zero] using h
    · cases hc : c.get sid' with
      | some e =>
        cases e with
        | ok v =>
          rw [exec_step_hit_ok ceiling sid' body onOk onErr c cnt w i v hi hc]
          exact ihOk v c cnt w _ sid r h
        | error e' =>
          rw [exec_step_hit_err ceiling sid' body onOk onErr c cnt w i e' hi hc]
          exact ihErr e' c cnt w _ sid r h
      | none =>
        have hne : sid ≠ sid' := by
          intro hs; rw [hs, hc] at h; cases h
        rcases hres : retryLoop body ceiling 0 w with ⟨res, w', n⟩
        have h' : (c.set sid' res).get sid = some r := by
          rw [StepCache.get_set_ne c sid' sid res hne]; exact h
        cases res with
        | ok v =>
          rw [exec_step_miss_ok ceiling sid' body onOk onErr c cnt w i v w' n hi hc hres]
          exact ihOk v _ _ _ _ sid r h'
        | error e' =>
          rw [exec_step_miss_err ceiling sid' body onOk onErr c cnt w i e' w' n hi hc hres]
          exact ihErr e' _ _ _ _ sid r h'

/-- A step whose result is recorded is never invoked again: its invocation
count does not change. -/
theorem counterFreeze (ceiling : Nat) :
    ∀ (prog : Prog) (c : StepCache) (cnt : Counts) (w : World) (i : Option Nat)
      (sid : StepId),
      (c.get sid).isSome →
      (exec ceiling prog c cnt w i).counts.get sid = cnt.get sid := by
  intro prog
  induction prog with
  | done r' => intro c cnt w i sid _; rfl
  | store op k ih =>
    intro c cnt w i sid h
    rw [exec_store]
    exact ih c cnt w i sid h
  | step sid' body onOk onErr ihOk ihErr =>
    intro c cnt w i sid h
    by_cases hi : i = some 0
    · subst hi; rw [exec_step_zero]
    · cases hc : c.get sid' with
      | some e =>
        cases e with
        | ok v =>
          rw [exec_step_hit_ok ceiling sid' body onOk onErr c cnt w i v hi hc]
          exact ihOk v c cnt w _ sid h
        | error e' =>
          rw [exec_step_hit_err ceiling sid' body onOk onErr c cnt w i e' hi hc]
          exact ihErr e' c cnt w _ sid h
      | none =>
        have hne : sid ≠ sid' := by
          intro hs; rw [hs, hc] at h; cases h
        rcases hres : retryLoop body ceiling 0 w with ⟨res, w', n⟩
        have h' : ((c.set sid' res).get sid).isSome := by
          rw [StepCache.get_set_ne c sid' sid res hne]; exact h
        have hcnt : (cnt.bump sid' n).get sid = cnt.get sid :=
          Counts.get_bump_ne cnt sid' sid n hne
        cases res with
        | ok v =>
          rw [exec_step_miss_ok ceiling sid' body onOk onErr c cnt w i v w' n hi hc hres]
          rw [ihOk v _ _ _ _ sid h', hcnt]
        | error e' =>
          rw [exec_step_miss_err ceiling sid' body onOk onErr c cnt w i e' w' n hi hc hres]
          rw [ihErr e' _ _ _ _ sid h', hcnt]

/-- Replay after interruption: if driving a run from `(c, cnt, w)` is
interrupted at the `k`-th step boundary, re-driving the whole program from
the interrupted configuration produces exactly the configuration (outcome,
durable table, counts, world and emitted store operations) of the
uninterrupted run — recorded steps are answered from the durable table, so
the replayed prefix changes nothing, and from the interruption point on
both runs compute identically. -/
theorem replay_eq (ceiling : Nat) :
    ∀ (prog : Prog) (c : StepCache) (cnt : Counts) (w : World) (k : Nat),
      (exec ceiling prog c cnt w (some k)).out = .interrupted →
      exec ceiling prog (exec ceiling prog c cnt w (some k)).cache
          (exec ceiling prog c cnt w (some k)).counts
          (exec ceiling prog c cnt w (some k)).world none =
        exec ceiling prog c cnt w none := by
  intro prog
  induction prog with
  | done r =>
    intro c cnt w k h
    cases h
  | store op kp ih =>
    intro c cnt w k h
    have h' : (exec ceiling kp c cnt w (some k)).out = .interrupted := h
    have hcfg :
        exec ceiling (.store op kp) (exec ceiling kp c cnt w (some k)).cache
            (exec ceiling kp c cnt w (some k)).counts
            (exec ceiling kp c cnt w (some k)).world none =
          exec ceiling (.store op kp) c cnt w none := by
      rw [exec_store, exec_store, ih c cnt w k h']
    exact hcfg
  | step sid body onOk onErr ihOk ihErr =>
    intro c cnt w k h
    cases k with
    | zero =>
      rw [exec_step_zero]
    | succ j =>
      have hi : (some (j + 1) : Option Nat) ≠ some 0 := by simp
      have hmap : (some (j + 1) : Option Nat).map (fun n => n - 1) = some j := by simp
      cases hc : c.get sid with
      | some e =>
        cases e with
        | ok v =>
          rw [exec_step_hit_ok ceiling sid body onOk onErr c cnt w _ v hi hc, hmap] at h ⊢
          have hm : (exec ceiling (onOk v) c cnt w (some j)).cache.get sid =
              some (.ok v) :=
            cacheMono ceiling (onOk v) c cnt w (some j) sid (.ok v) hc
          rw [exec_step_hit_ok ceiling sid body onOk onErr _ _ _ none v (by simp) hm]
          rw [exec_step_hit_ok ceiling sid body onOk onErr c cnt w none v (by simp) hc]
          simpa using ihOk v c cnt w j h
        | error e' =>
          rw [exec_step_hit_err ceiling sid body onOk onErr c cnt w _ e' hi hc, hmap] at h ⊢
          have hm : (exec ceiling (onErr e') c cnt w (some j)).cache.get sid =
              some (.error e') :=
            cacheMono ceiling (onErr e') c cnt w (some j) sid (.error e') hc
          rw [exec_step_hit_err ceiling sid body onOk onErr _ _ _ none e' (by simp) hm]
          rw [exec_step_hit_err ceiling sid body onOk onErr c cnt w none e' (by simp) hc]
          simpa using ihErr e' c cnt w j h
      | none =>
        rcases hres : retryLoop body ceiling 0 w with ⟨res, w', n⟩
        cases res with
        | ok v =>
          rw [exec_step_miss_ok ceiling sid body onOk onErr c cnt w _ v w' n hi hc hres,
            hmap] at h ⊢
          have hm : (exec ceiling (onOk v) (c.set sid (.ok v)) (cnt.bump sid n) w'
              (some j)).cache.get sid = some (.ok v) :=
            cacheMono ceiling (onOk v) _ _ _ (some j) sid (.ok v)
              (StepCache.get_set_same c sid (.ok v))
          rw [exec_step_hit_ok ceiling sid body onOk onErr _ _ _ none v (by simp) hm]
          rw [exec_step_miss_ok ceiling sid body onOk onErr c cnt w none v w' n (by simp)
            hc hres]
          simpa using ihOk v (c.set sid (.ok v)) (cnt.bump sid n) w' j h
        | error e' =>
          rw [exec_step_miss_err ceiling sid body onOk onErr c cnt w _ e' w' n hi hc hres,
            hmap] at h ⊢
          have hm : (exec ceiling (onErr e') (c.set sid (.error e')) (cnt.bump sid n) w'
              (some j)).cache.get sid = some (.error e') :=
            cacheMono ceiling (onErr e') _ _ _ (some j) sid (.error e')
              (StepCache.get_set_same c sid (.error e'))
          rw [exec_step_hit_err ceiling sid body onOk onErr _ _ _ none e' (by simp) hm]
          rw [exec_step_miss_err ceiling sid body onOk onErr c cnt w none e' w' n (by simp)
            hc hres]
          simpa using ihErr e' (c.set sid (.error e')) (cnt.bump sid n) w' j h

/-! ### Structure of the store-operation trace -/

/-- Whether a store operation is an `addJobLog` (as opposed to an
`updateJob`). -/
def StoreOp.isLog : StoreOp → Bool
  | .log _ _ => true
  | .update _ _ => false

/-- A program with no step dispatches and no job updates (the code after a
terminal `updateJob` call). -/
def Prog.tailClean : Prog → Prop
  | .done _ => True
  | .store (.log _ _) k => k.tailClean
  | .store (.update _ _) _ => False
  | .step _ _ _ _ => False

/-- Every `updateJob` in the program is terminal: once an update is
emitted, no step dispatch and no further update can follow. -/
def Prog.updLast : Prog → Prop
  | .done _ => True
  | .store (.log _ _) k => k.updLast
  | .store (.update _ _) k => k.tailClean
  | .step _ _ onOk onErr => (∀ v, (onOk v).updLast) ∧ (∀ e, (onErr e).updLast)

/-- Every `updateJob` the program can emit satisfies `P`, where step-result
values entering success continuations are constrained by `Q` and each step
body only produces `Q`-values. -/
def Prog.updWf (P : String → JobUpdates → Prop) (Q : StepId → Val → Prop) : Prog → Prop
  | .done _ => True
  | .store (.log _ _) k => k.updWf P Q
  | .store (.update id u) k => P id u ∧ k.updWf P Q
  | .step sid body onOk onErr =>
      (∀ i w v w', body i w = (.ok v, w') → Q sid v) ∧
      (∀ v, Q sid v → (onOk v).updWf P Q) ∧
      (∀ e, (onErr e).updWf P Q)

/-- All recorded successes in a durable table satisfy `Q`. -/
def CacheOK (Q : StepId → Val → Prop) (c : StepCache) : Prop :=
  ∀ sid v, c.get sid = some (.ok v) → Q sid v

/-- A successful retry outcome was produced by some invocation of the
body. -/
theorem retryLoop_ok_src (body : StepBody) :
    ∀ (fuel i : Nat) (w : World) (v : Val) (w' : World) (n : Nat),
      retryLoop body fuel i w = (.ok v, w', n) →
      ∃ j wj wk, body j wj = (.ok v, wk) := by
  intro fuel
  induction fuel with
  | zero => intro i w v w' n h; cases h
  | succ fuel ih =>
    intro i w v w' n h
    rcases hb : body i w with ⟨r, w2⟩
    cases r with
    | ok v0 =>
      refine ⟨i, w, w2, ?_⟩
      simp only [retryLoop, hb, Prod.mk.injEq, Except.ok.injEq] at h
      rw [hb, h.1]
    | error e =>
      cases e with
      | fatal m =>
        simp [retryLoop, hb] at h
      | transient m =>
        simp only [retryLoop, hb] at h
        by_cases hf : fuel = 0
        · simp [hf] at h
        · rw [if_neg hf] at h
          rcases hr : retryLoop body fuel (i + 1) w2 with ⟨r1, w3, n3⟩
          simp only [hr, Prod.mk.injEq] at h
          exact ih (i + 1) w2 v w3 n3 (by rw [hr, h.1])


/-- A step-and-update-free tail finishes (it cannot be interrupted) and
emits only log operations. -/
theorem tailClean_exec (ceiling : Nat) :
    ∀ (prog : Prog), prog.tailClean →
      ∀ (c : StepCache) (cnt : Counts) (w : World) (i : Option Nat),
        (exec ceiling prog c cnt w i).out ≠ .interrupted ∧
        ∀ op ∈ (exec ceiling prog c cnt w i).ops, op.isLog = true := by
  intro prog
  induction prog with
  | done r =>
    intro _ c cnt w i
    refine ⟨fun hcon => Out.noConfusion hcon, ?_⟩
    intro op hop
    cases hop
  | store op k ih =>
    intro h c cnt w i
    cases op with
    | log id msg =>
      obtain ⟨h1, h2⟩ := ih h c cnt w i
      refine ⟨h1, ?_⟩
      intro op' hop'
      rw [exec_store] at hop'
      rcases List.mem_cons.mp hop' with heq | hmem
      · rw [heq]; rfl
      · exact h2 op' hmem
    | update id u => exact h.elim
  | step sid body onOk onErr ihOk ihErr =>
    intro h
    exact h.elim

/-- If a run was interrupted, every store operation it performed so far is
a log (`Prog.updLast`: updates happen only after the final step). -/
theorem updLast_interrupted (ceiling : Nat) :
    ∀ (prog : Prog), prog.updLast →
      ∀ (c : StepCache) (cnt : Counts) (w : World) (k : Nat),
        (exec ceiling prog c cnt w (some k)).out = .interrupted →
        ∀ op ∈ (exec ceiling prog c cnt w (some k)).ops, op.isLog = true := by
  intro prog
  induction prog with
  | done r =>
    intro _ c cnt w k hout
    exact absurd hout (fun hcon => Out.noConfusion hcon)
  | store op k ih =>
    intro h c cnt w kk hout
    cases op with
    | log id msg =>
      rw [exec_store] at hout
      intro op' hop'
      rw [exec_store] at hop'
      rcases List.mem_cons.mp hop' with heq | hmem
      · rw [heq]; rfl
      · exact ih h c cnt w kk hout op' hmem
    | update id u =>
      rw [exec_store] at hout
      exact absurd hout (tailClean_exec ceiling k h c cnt w (some kk)).1
  | step sid body onOk onErr ihOk ihErr =>
    intro h c cnt w k hout
    obtain ⟨hOk, hErr⟩ := h
    cases k with
    | zero =>
      rw [exec_step_zero]
      intro op hop
      cases hop
    | succ j =>
      have hi : (some (j + 1) : Option Nat) ≠ some 0 := by simp
      have hmap : (some (j + 1) : Option Nat).map (fun n => n - 1) = some j := by simp
      cases hc : c.get sid with
      | some e =>
        cases e with
        | ok v =>
          rw [exec_step_hit_ok ceiling sid body onOk onErr c cnt w _ v hi hc, hmap] at hout ⊢
          exact ihOk v (hOk v) c cnt w j hout
        | error e' =>
          rw [exec_step_hit_err ceiling sid body onOk onErr c cnt w _ e' hi hc, hmap] at hout ⊢
          exact ihErr e' (hErr e') c cnt w j hout
      | none =>
        rcases hres : retryLoop body ceiling 0 w with ⟨res, w', n⟩
        cases res with
        | ok v =>
          rw [exec_step_miss_ok ceiling sid body onOk onErr c cnt w _ v w' n hi hc hres,
            hmap] at hout ⊢
          exact ihOk v (hOk v) _ _ _ j hout
        | error e' =>
          rw [exec_step_miss_err ceiling sid body onOk onErr c cnt w _ e' w' n hi hc hres,
            hmap] at hout ⊢
          exact ihErr e' (hErr e') _ _ _ j hout

/-- The operation trace of an `updLast` program is a run of logs with at
most one embedded update: either all logs, or logs, one update, logs. -/
theorem updLast_shape (ceiling : Nat) :
    ∀ (prog : Prog), prog.updLast →
      ∀ (c : StepCache) (cnt : Counts) (w : World) (i : Option Nat),
        (∀ op ∈ (exec ceiling prog c cnt w i).ops, op.isLog = true) ∨
        ∃ A id u B, (exec ceiling prog c cnt w i).ops = A ++ StoreOp.update id u :: B ∧
          (∀ op ∈ A, op.isLog = true) ∧ (∀ op ∈ B, op.isLog = true) := by
  intro prog
  induction prog with
  | done r =>
    intro _ c cnt w i
    left
    intro op hop
    cases hop
  | store op k ih =>
    intro h c cnt w i
    cases op with
    | log id msg =>
      rcases ih h c cnt w i with hall | ⟨A, id', u, B, hsplit, hA, hB⟩
      · left
        intro op' hop'
        rw [exec_store] at hop'
        rcases List.mem_cons.mp hop' with heq | hmem
        · rw [heq]; rfl
        · exact hall op' hmem
      · right
        refine ⟨.log id msg :: A, id', u, B, ?_, ?_, hB⟩
        · rw [exec_store, hsplit]; rfl
        · intro op' hop'
          rcases List.mem_cons.mp hop' with heq | hmem
          · rw [heq]; rfl
          · exact hA op' hmem
    | update id u =>
      right
      refine ⟨[], id, u, (exec ceiling k c cnt w i).ops, ?_, ?_, ?_⟩
      · rw [exec_store]; rfl
      · intro op' hop'; cases hop'
      · exact (tailClean_exec ceiling k h c cnt w i).2
  | step sid body onOk onErr ihOk ihErr =>
    intro h c cnt w i
    obtain ⟨hOk, hErr⟩ := h
    by_cases hi : i = some 0
    · subst hi
      rw [exec_step_zero]
      left
      intro op hop
      cases hop
    · cases hc : c.get sid with
      | some e =>
        cases e with
        | ok v =>
          rw [exec_step_hit_ok ceiling sid body onOk onErr c cnt w i v hi hc]
          exact ihOk v (hOk v) c cnt w _
        | error e' =>
          rw [exec_step_hit_err ceiling sid body onOk onErr c cnt w i e' hi hc]
          exact ihErr e' (hErr e') c cnt w _
      | none =>
        rcases hres : retryLoop body ceiling 0 w with ⟨res, w', n⟩
        cases res with
        | ok v =>
          rw [exec_step_miss_ok ceiling sid body onOk onErr c cnt w i v w' n hi hc hres]
          exact ihOk v (hOk v) _ _ _ _
        | error e' =>
          rw [exec_step_miss_err ceiling sid body onOk onErr c cnt w i e' w' n hi hc hres]
          exact ihErr e' (hErr e') _ _ _ _

/-- Every update operation an `updWf` run emits satisfies `P`, provided
the starting durable table only records `Q`-values. -/
theorem updWf_exec (ceiling : Nat) (P : String → JobUpdates → Prop)
    (Q : StepId → Val → Prop) :
    ∀ (prog : Prog), prog.updWf P Q →
      ∀ (c : StepCache) (cnt : Counts) (w : World) (i : Option Nat), CacheOK Q c →
        ∀ (id : String) (u : JobUpdates),
          StoreOp.update id u ∈ (exec ceiling prog c cnt w i).ops → P id u := by
  intro prog
  induction prog with
  | done r =>
    intro _ c cnt w i _ id u hmem
    cases hmem
  | store op k ih =>
    intro h c cnt w i hok id u hmem
    rw [exec_store] at hmem
    cases op with
    | log id' msg =>
      rcases List.mem_cons.mp hmem with heq | hmem'
      · exact absurd heq (fun hcon => StoreOp.noConfusion hcon)
      · exact ih h c cnt w i hok id u hmem'
    | update id' u' =>
      rcases List.mem_cons.mp hmem with heq | hmem'
      · obtain ⟨h1, h2⟩ := StoreOp.update.inj heq
        subst h1
        subst h2
        exact h.1
      · exact ih h.2 c cnt w i hok id u hmem'
  | step sid body onOk onErr ihOk ihErr =>
    intro h c cnt w i hok id u hmem
    obtain ⟨hbody, hOnOk, hOnErr⟩ := h
    by_cases hi : i = some 0
    · subst hi
      rw [exec_step_zero] at hmem
      cases hmem
    · cases hc : c.get sid with
      | some e =>
        cases e with
        | ok v =>
          rw [exec_step_hit_ok ceiling sid body onOk onErr c cnt w i v hi hc] at hmem
          exact ihOk v (hOnOk v (hok sid v hc)) c cnt w _ hok id u hmem
        | error e' =>
          rw [exec_step_hit_err ceiling sid body onOk onErr c cnt w i e' hi hc] at hmem
          exact ihErr e' (hOnErr e') c cnt w _ hok id u hmem
      | none =>
        rcases hres : retryLoop body ceiling 0 w with ⟨res, w', n⟩
        cases res with
        | ok v =>
          rw [exec_step_miss_ok ceiling sid body onOk onErr c cnt w i v w' n hi hc hres]
            at hmem
          have hQ : Q sid v := by
            obtain ⟨j, wj, wk, hb⟩ := retryLoop_ok_src body ceiling 0 w v w' n hres
            exact hbody j wj v wk hb
          have hok' : CacheOK Q (c.set sid (.ok v)) := by
            intro sid' v' hget
            by_cases hs : sid' = sid
            · subst hs
              rw [StepCache.get_set_same] at hget
              obtain hv := Except.ok.inj (Option.some.inj hget)
              rw [← hv]
              exact hQ
            · rw [StepCache.get_set_ne c sid sid' _ hs] at hget
              exact hok sid' v' hget
          exact ihOk v (hOnOk v hQ) _ _ _ _ hok' id u hmem
        | error e' =>
          rw [exec_step_miss_err ceiling sid body onOk onErr c cnt w i e' w' n hi hc hres]
            at hmem
          have hok' : CacheOK Q (c.set sid (.error e')) := by
            intro sid' v' hget
            by_cases hs : sid' = sid
            · subst hs
              rw [StepCache.get_set_same] at hget
              exact absurd (Option.some.inj hget) (fun hcon => Except.noConfusion hcon)
            · rw [StepCache.get_set_ne c sid sid' _ hs] at hget
              exact hok sid' v' hget
          exact ihErr e' (hOnErr e') _ _ _ _ hok' id u hmem


/-! ### Structure of the orchestrator's trace -/

theorem catchProg_updLast (jid m : String) : (catchProg jid m).updLast :=
  trivial

theorem successBranch_updLast (env : Env) (p : BackportParams) (br : String) :
    (successBranch env p br).updLast :=
  ⟨fun _ => ⟨fun _ => trivial, fun e => catchProg_updLast p.jobId e.message⟩,
    fun e => catchProg_updLast p.jobId e.message⟩

theorem failureBranch_updLast (env : Env) (p : BackportParams) (err : Option String) :
    (failureBranch env p err).updLast :=
  ⟨fun _ => trivial, fun e => catchProg_updLast p.jobId e.message⟩

/-- In `backportPullRequest`, every `updateJob` is terminal: no step
dispatch and no second update ever follows one. -/
theorem orchestrator_updLast (env : Env) (p : BackportParams) :
    (orchestrator env p).updLast := by
  refine ⟨fun _ => ⟨fun dv => ⟨fun _ => ⟨fun av => ⟨fun pv => ?_,
    fun e => catchProg_updLast p.jobId e.message⟩,
    fun e => catchProg_updLast p.jobId e.message⟩,
    fun e => catchProg_updLast p.jobId e.message⟩,
    fun e => catchProg_updLast p.jobId e.message⟩,
    fun e => catchProg_updLast p.jobId e.message⟩
  by_cases hs : (pv.asPerf).success = true
  · simp only [hs, if_true]
    exact successBranch_updLast env p _
  · simp only [hs, if_false]
    exact failureBranch_updLast env p _

/-- An update is "good" when it marks the job terminal with exactly the
matching payload field: `failed` with an error message and no `resultPR`,
or `completed` with a `resultPR` and no error. -/
def GoodUpd (u : JobUpdates) : Prop :=
  (u.status = some .failed ∧ u.resultPR = none ∧ ∃ m, u.error = some m) ∨
  (u.status = some .completed ∧ u.error = none ∧ ∃ n, u.resultPR = some n)

/-- The update targets the given job id and is good. -/
def PGood (jid : String) (id : String) (u : JobUpdates) : Prop :=
  id = jid ∧ GoodUpd u

/-- The collaborator contract for the opaque `performBackport` step, which
the code itself relies on through `backportResult.error!`: a failure value
carries an error message. -/
def WfEnv (env : Env) : Prop :=
  ∀ i, (env.perform i).success = false → (env.perform i).error.isSome = true

/-- What a recorded success of each step can be: the `perform` step only
ever records the collaborator's `PerformResult`. -/
def Qenv (env : Env) : StepId → Val → Prop
  | .perform, v => ∃ i, v = .perf (env.perform i)
  | _, _ => True

theorem catchProg_updWf (jid m : String) (Q : StepId → Val → Prop) :
    (catchProg jid m).updWf (PGood jid) Q :=
  ⟨⟨rfl, Or.inl ⟨rfl, rfl, m, rfl⟩⟩, trivial⟩

theorem successBranch_updWf (env : Env) (p : BackportParams) (br : String) :
    (successBranch env p br).updWf (PGood p.jobId) (Qenv env) :=
  ⟨fun _ _ _ _ _ => trivial,
    fun nv _ =>
      ⟨fun _ _ _ _ _ => trivial,
        fun _ _ => ⟨⟨rfl, Or.inr ⟨rfl, rfl, nv.asNum, rfl⟩⟩, trivial⟩,
        fun e => catchProg_updWf p.jobId e.message (Qenv env)⟩,
    fun e => catchProg_updWf p.jobId e.message (Qenv env)⟩

theorem failureBranch_updWf (env : Env) (p : BackportParams) (err : Option String)
    (herr : err.isSome = true) :
    (failureBranch env p err).updWf (PGood p.jobId) (Qenv env) :=
  ⟨fun _ _ _ _ _ => trivial,
    fun _ _ =>
      ⟨⟨rfl, Or.inl ⟨rfl, rfl, Option.get err herr, (Option.some_get herr).symm⟩⟩, trivial⟩,
    fun e => catchProg_updWf p.jobId e.message (Qenv env)⟩

/-- Every `updateJob` that `backportPullRequest` can perform targets the
run's job id and marks the job terminal with exactly one payload field. -/
theorem orchestrator_updWf (env : Env) (p : BackportParams) (hwf : WfEnv env) :
    (orchestrator env p).updWf (PGood p.jobId) (Qenv env) := by
  refine ⟨fun _ _ _ _ _ => trivial,
    fun _ _ => ⟨fun _ _ _ _ _ => trivial,
      fun dv _ => ⟨fun _ _ _ _ _ => trivial,
        fun _ _ => ⟨fun _ _ _ _ _ => trivial,
          fun av _ => ⟨?_, fun pv hq => ?_,
            fun e => catchProg_updWf p.jobId e.message (Qenv env)⟩,
          fun e => catchProg_updWf p.jobId e.message (Qenv env)⟩,
        fun e => catchProg_updWf p.jobId e.message (Qenv env)⟩,
      fun e => catchProg_updWf p.jobId e.message (Qenv env)⟩,
    fun e => catchProg_updWf p.jobId e.message (Qenv env)⟩
  · intro i w v w' hb
    simp only [performBody, Prod.mk.injEq, Except.ok.injEq] at hb
    exact ⟨i, hb.1.symm⟩
  · obtain ⟨i, hv⟩ := hq
    subst hv
    simp only [Val.asPerf]
    by_cases hs : (env.perform i).success = true
    · simp only [hs, if_true]
      exact successBranch_updWf env p _
    · simp only [hs, if_false]
      exact failureBranch_updWf env p _ (hwf i (Bool.not_eq_true _ ▸ hs))

/-! ### Effect of operation traces on the job store -/

/-- The terminal-outcome projection of a job: its status, `resultPR` and
`error` (everything a claim about outcomes observes; logs and `updatedAt`
are excluded). -/
def proj (j : BackportJob) : JobStatus × Option Nat × Option String :=
  (j.status, j.resultPR, j.error)

/-- The projection of the record stored under `id`, when present. -/
def getProj (s : Store) (id : String) : Option (JobStatus × Option Nat × Option String) :=
  (getJob s id).map proj

theorem getJob_jobsSet_same (s : Store) (j : BackportJob) :
    getJob (jobsSet s j) j.id = some j := by
  induction s with
  | nil => simp [jobsSet, getJob]
  | cons a s ih =>
    by_cases h : (a.id == j.id) = true
    · simp [jobsSet, h, getJob]
    · have hb : (a.id == j.id) = false := Bool.not_eq_true _ ▸ h
      simp only [jobsSet, hb, Bool.false_eq_true, if_false]
      rw [getJob, List.find?_cons_of_neg _ (by simpa using hb)]
      exact ih

theorem getJob_jobsSet_ne (s : Store) (j : BackportJob) (q : String) (h : q ≠ j.id) :
    getJob (jobsSet s j) q = getJob s q := by
  have hjq : (j.id == q) = false := by
    simp only [beq_eq_false_iff_ne, ne_eq]
    exact fun hc => h hc.symm
  induction s with
  | nil => simp [jobsSet, getJob, hjq]
  | cons a s ih =>
    by_cases ha : (a.id == j.id) = true
    · have haid : a.id = j.id := by simpa using ha
      have haq : (a.id == q) = false := by
        simp only [beq_eq_false_iff_ne, ne_eq, haid]
        exact fun hc => h hc.symm
      simp only [jobsSet, ha, if_true]
      rw [getJob, List.find?_cons_of_neg _ (by simpa using hjq),
        getJob, List.find?_cons_of_neg _ (by simpa using haq)]
    · have hb : (a.id == j.id) = false := Bool.not_eq_true _ ▸ ha
      simp only [jobsSet, hb, Bool.false_eq_true, if_false]
      cases hq : a.id == q with
      | true =>
        rw [getJob, List.find?_cons_of_pos _ (by simpa using hq),
          getJob, List.find?_cons_of_pos _ (by simpa using hq)]
      | false =>
        rw [getJob, List.find?_cons_of_neg _ (by simpa using hq),
          getJob, List.find?_cons_of_neg _ (by simpa using hq)]
        exact ih

theorem mem_jobsSet (s : Store) (j x : BackportJob) (h : x ∈ jobsSet s j) :
    x ∈ s ∨ x = j := by
  induction s with
  | nil =>
    simp only [jobsSet] at h
    exact Or.inr (List.mem_singleton.mp h)
  | cons a s ih =>
    by_cases ha : (a.id == j.id) = true
    · simp only [jobsSet, ha, if_true] at h
      rcases List.mem_cons.mp h with heq | hmem
      · exact Or.inr heq
      · exact Or.inl (List.mem_cons_of_mem a hmem)
    · have hb : (a.id == j.id) = false := Bool.not_eq_true _ ▸ ha
      simp only [jobsSet, hb, Bool.false_eq_true, if_false] at h
      rcases List.mem_cons.mp h with heq | hmem
      · exact Or.inl (heq ▸ List.mem_cons_self a s)
      · rcases ih hmem with h' | h'
        · exact Or.inl (List.mem_cons_of_mem a h')
        · exact Or.inr h'

theorem getJob_mem (s : Store) (id : String) (j : BackportJob)
    (h : getJob s id = some j) : j ∈ s ∧ j.id = id := by
  refine ⟨List.mem_of_find?_eq_some h, ?_⟩
  have := List.find?_some h
  simpa using this

/-- Log operations do not change any record's terminal-outcome
projection. -/
theorem getProj_addJobLog (s : Store) (id m : String) (now : Nat) (q : String) :
    getProj (addJobLog s id m now) q = getProj s q := by
  rw [addJobLog]
  cases hj : getJob s id with
  | none => rfl
  | some j =>
    obtain ⟨hmem, hid⟩ := getJob_mem s id j hj
    subst hid
    by_cases hq : q = j.id
    · subst hq
      have h1 : getJob
          (jobsSet s { j with logs := j.logs ++ [logLine now m], updatedAt := now }) j.id =
          some { j with logs := j.logs ++ [logLine now m], updatedAt := now } :=
        getJob_jobsSet_same s _
      rw [getProj, h1, getProj, hj]
      rfl
    · have h2 : getJob
          (jobsSet s { j with logs := j.logs ++ [logLine now m], updatedAt := now }) q =
          getJob s q :=
        getJob_jobsSet_ne s _ q hq
      rw [getProj, h2, getProj]

/-- Frame rule for `updateJob` on another id. -/
theorem getProj_update_ne (s : Store) (id : String) (u : JobUpdates) (now : Nat)
    (q : String) (h : q ≠ id) :
    getProj (applyOp s now (.update id u)) q = getProj s q := by
  rw [applyOp, updateJob]
  cases hj : getJob s id with
  | none => rfl
  | some j =>
    obtain ⟨hmem, hid⟩ := getJob_mem s id j hj
    subst hid
    have h2 : getJob (jobsSet s (applyUpdates j u now)) q = getJob s q :=
      getJob_jobsSet_ne s _ q h
    rw [getProj, h2, getProj]

/-- How the projection merges a partial update. -/
def projUpd (t : JobStatus × Option Nat × Option String) (u : JobUpdates) :
    JobStatus × Option Nat × Option String :=
  (u.status.getD t.1, mergeOpt u.resultPR t.2.1, mergeOpt u.error t.2.2)

/-- Effect of `updateJob` on the updated id's projection. -/
theorem getProj_update_same (s : Store) (id : String) (u : JobUpdates) (now : Nat) :
    getProj (applyOp s now (.update id u)) id =
      (getProj s id).map (fun t => projUpd t u) := by
  rw [applyOp, updateJob]
  cases hj : getJob s id with
  | none => simp [getProj, hj]
  | some j =>
    obtain ⟨hmem, hid⟩ := getJob_mem s id j hj
    subst hid
    have h1 : getJob (jobsSet s (applyUpdates j u now)) j.id =
        some (applyUpdates j u now) :=
      getJob_jobsSet_same s _
    rw [getProj, h1, getProj, hj]
    rfl

/-- The per-record invariant of claim C2: a terminal record carries exactly
one of `resultPR`/`error`, a non-terminal record carries neither. -/
def JobInv (j : BackportJob) : Prop :=
  ((j.status = .pending ∨ j.status = .in_progress) →
    (j.resultPR = none ∧ j.error = none)) ∧
  ((j.status = .completed ∨ j.status = .failed) →
    ((j.resultPR.isSome = true ∧ j.error = none) ∨
      (j.resultPR = none ∧ j.error.isSome = true)))

/-- Every record in the store satisfies the invariant. -/
def StoreInv (s : Store) : Prop := ∀ j ∈ s, JobInv j

theorem jobInv_of_proj_eq {j j' : BackportJob} (h : proj j = proj j') :
    JobInv j → JobInv j' := by
  intro hinv
  have h1 : j.status = j'.status := congrArg (fun t => t.1) h
  have h2 : j.resultPR = j'.resultPR := congrArg (fun t => t.2.1) h
  have h3 : j.error = j'.error := congrArg (fun t => t.2.2) h
  rw [JobInv] at hinv ⊢
  rw [← h1, ← h2, ← h3]
  exact hinv

theorem addJobLog_storeInv (s : Store) (id m : String) (now : Nat)
    (h : StoreInv s) : StoreInv (addJobLog s id m now) := by
  rw [addJobLog]
  cases hj : getJob s id with
  | none => exact h
  | some j =>
    intro x hx
    rcases mem_jobsSet _ _ _ hx with hmem | heq
    · exact h x hmem
    · have hinv := h j (getJob_mem s id j hj).1
      rw [heq]
      exact jobInv_of_proj_eq rfl hinv

theorem update_storeInv (s : Store) (id : String) (u : JobUpdates) (now : Nat)
    (h : StoreInv s) (hu : GoodUpd u)
    (hclean : ∀ j, getJob s id = some j → j.resultPR = none ∧ j.error = none) :
    StoreInv (applyOp s now (.update id u)) := by
  rw [applyOp, updateJob]
  cases hj : getJob s id with
  | none => exact h
  | some j =>
    intro x hx
    rcases mem_jobsSet _ _ _ hx with hmem | heq
    · exact h x hmem
    · obtain ⟨hrp, herr⟩ := hclean j hj
      subst heq
      rcases hu with ⟨hst, hru, m, hm⟩ | ⟨hst, heu, n, hn⟩
      · have hstval : (applyUpdates j u now).status = .failed := by
          rw [applyUpdates]; simp [hst]
        have hrpval : (applyUpdates j u now).resultPR = none := by
          rw [applyUpdates]; simp [hru, mergeOpt, hrp]
        have herval : (applyUpdates j u now).error = some m := by
          rw [applyUpdates]; simp [hm, mergeOpt]
        refine ⟨fun hcon => ?_, fun _ => Or.inr ⟨hrpval, by rw [herval]; rfl⟩⟩
        rcases hcon with hc | hc <;> rw [hstval] at hc <;> cases hc
      · have hstval : (applyUpdates j u now).status = .completed := by
          rw [applyUpdates]; simp [hst]
        have hrpval : (applyUpdates j u now).resultPR = some n := by
          rw [applyUpdates]; simp [hn, mergeOpt]
        have herval : (applyUpdates j u now).error = none := by
          rw [applyUpdates]; simp [heu, mergeOpt, herr]
        refine ⟨fun hcon => ?_, fun _ => Or.inl ⟨by rw [hrpval]; rfl, herval⟩⟩
        rcases hcon with hc | hc <;> rw [hstval] at hc <;> cases hc

/-- A trace of log operations changes no projection. -/
theorem logsOnly_getProj (now : Nat) :
    ∀ (l : List StoreOp), (∀ op ∈ l, op.isLog = true) →
      ∀ (s : Store) (q : String), getProj (applyOps s now l) q = getProj s q := by
  intro l
  induction l with
  | nil => intro _ s q; rfl
  | cons op t ih =>
    intro h s q
    have hop := h op (List.mem_cons_self op t)
    have ht := fun op' hm => h op' (List.mem_cons_of_mem op hm)
    cases op with
    | log id msg =>
      rw [applyOps, List.foldl_cons]
      have htail := ih ht (applyOp s now (.log id msg)) q
      rw [applyOps] at htail
      rw [htail]
      exact getProj_addJobLog s id msg now q
    | update id u => cases hop

/-- A trace of log operations preserves the store invariant. -/
theorem logsOnly_storeInv (now : Nat) :
    ∀ (l : List StoreOp), (∀ op ∈ l, op.isLog = true) →
      ∀ (s : Store), StoreInv s → StoreInv (applyOps s now l) := by
  intro l
  induction l with
  | nil => intro _ s h; exact h
  | cons op t ih =>
    intro h s hs
    have hop := h op (List.mem_cons_self op t)
    have ht := fun op' hm => h op' (List.mem_cons_of_mem op hm)
    cases op with
    | log id msg =>
      rw [applyOps, List.foldl_cons]
      exact ih ht _ (addJobLog_storeInv s id msg now hs)
    | update id u => cases hop

/-- Stores that agree on every projection keep agreeing after any trace. -/
theorem applyOps_proj_congr (now : Nat) :
    ∀ (l : List StoreOp) (s s' : Store), (∀ q, getProj s q = getProj s' q) →
      ∀ q, getProj (applyOps s now l) q = getProj (applyOps s' now l) q := by
  intro l
  induction l with
  | nil => intro s s' h q; exact h q
  | cons op t ih =>
    intro s s' h q
    rw [applyOps, List.foldl_cons, applyOps, List.foldl_cons]
    refine ih _ _ ?_ q
    intro q'
    cases op with
    | log id msg =>
      rw [show applyOp s now (.log id msg) = addJobLog s id msg now from rfl,
        show applyOp s' now (.log id msg) = addJobLog s' id msg now from rfl,
        getProj_addJobLog, getProj_addJobLog]
      exact h q'
    | update id u =>
      by_cases hq : q' = id
      · subst hq
        rw [getProj_update_same, getProj_update_same, h q']
      · rw [getProj_update_ne _ _ _ _ _ hq, getProj_update_ne _ _ _ _ _ hq]
        exact h q'

/-! ### Claim C8: `updateJob` merge and frame properties -/

/-- C8: for an existing id, `updateJob` returns the merged record and
stores it: `id` and `createdAt` are unchanged (the TypeScript parameter
types `Partial<Omit<BackportJob, "id" | "createdAt">>` and
`Partial<Omit<BackportJob, "id" | "createdAt" | "logs">>` reject them, so
the models `JobUpdates` and `RedisJobUpdates` cannot name them),
`updatedAt` is refreshed to `now` even if the partial object names it,
every unnamed field keeps its stored value, every named field takes the
supplied value, and records under other ids are untouched.  For a missing
id it returns `none` and leaves the store unchanged.  The first two
conjuncts settle the in-memory implementation; the third settles the
Redis implementation, whose stored record is the hash field map (an
existing id is one whose `HGETALL` is nonempty). -/
theorem updateJob_frame (s : Store) (id : String) (u : JobUpdates) (now : Nat) :
    (∀ j, getJob s id = some j →
      ∃ j', updateJob s id u now = (some j', jobsSet s j') ∧
        getJob (jobsSet s j') id = some j' ∧
        j'.id = j.id ∧
        j'.createdAt = j.createdAt ∧
        j'.updatedAt = now ∧
        ((u.repository = none → j'.repository = j.repository) ∧
          (∀ x, u.repository = some x → j'.repository = x)) ∧
        ((u.installationId = none → j'.installationId = j.installationId) ∧
          (∀ x, u.installationId = some x → j'.installationId = x)) ∧
        ((u.sourcePR = none → j'.sourcePR = j.sourcePR) ∧
          (∀ x, u.sourcePR = some x → j'.sourcePR = x)) ∧
        ((u.targetBranch = none → j'.targetBranch = j.targetBranch) ∧
          (∀ x, u.targetBranch = some x → j'.targetBranch = x)) ∧
        ((u.status = none → j'.status = j.status) ∧
          (∀ x, u.status = some x → j'.status = x)) ∧
        ((u.requestedBy = none → j'.requestedBy = j.requestedBy) ∧
          (∀ x, u.requestedBy = some x → j'.requestedBy = x)) ∧
        ((u.commentId = none → j'.commentId = j.commentId) ∧
          (∀ x, u.commentId = some x → j'.commentId = x)) ∧
        ((u.resultPR = none → j'.resultPR = j.resultPR) ∧
          (∀ x, u.resultPR = some x → j'.resultPR = some x)) ∧
        ((u.error = none → j'.error = j.error) ∧
          (∀ x, u.error = some x → j'.error = some x)) ∧
        ((u.logs = none → j'.logs = j.logs) ∧
          (∀ x, u.logs = some x → j'.logs = x)) ∧
        (∀ q, q ≠ id → getJob (jobsSet s j') q = getJob s q)) ∧
    (getJob s id = none → updateJob s id u now = (none, s)) ∧
    (∀ (rst : RedisState) (ru : RedisJobUpdates),
      ((hgetall rst (jobKey id)).isEmpty = true →
        updateJobRedis rst id ru now = (none, rst)) ∧
      ((hgetall rst (jobKey id)).isEmpty = false →
        (updateJobRedis rst id ru now).1 =
          some (mergedFields (hgetall rst (jobKey id)) ru now,
            lrangeAll rst (jobLogsKey id)) ∧
        hgetall (updateJobRedis rst id ru now).2 (jobKey id) =
          mergedFields (hgetall rst (jobKey id)) ru now ∧
        ((updateJobRedis rst id ru now).2).lists = rst.lists ∧
        (∀ k, k ≠ jobKey id →
          hgetall (updateJobRedis rst id ru now).2 k = hgetall rst k) ∧
        fieldGet (hgetall (updateJobRedis rst id ru now).2 (jobKey id)) "id" =
          fieldGet (hgetall rst (jobKey id)) "id" ∧
        fieldGet (hgetall (updateJobRedis rst id ru now).2 (jobKey id)) "createdAt" =
          fieldGet (hgetall rst (jobKey id)) "createdAt" ∧
        fieldGet (hgetall (updateJobRedis rst id ru now).2 (jobKey id)) "updatedAt" =
          some (toString now) ∧
        ((ru.repository = none →
            fieldGet (hgetall (updateJobRedis rst id ru now).2 (jobKey id)) "repository" =
              fieldGet (hgetall rst (jobKey id)) "repository") ∧
          (∀ x, ru.repository = some x →
            fieldGet (hgetall (updateJobRedis rst id ru now).2 (jobKey id)) "repository" =
              some x)) ∧
        ((ru.installationId = none →
            fieldGet (hgetall (updateJobRedis rst id ru now).2 (jobKey id)) "installationId" =
              fieldGet (hgetall rst (jobKey id)) "installationId") ∧
          (∀ x, ru.installationId = some x →
            fieldGet (hgetall (updateJobRedis rst id ru now).2 (jobKey id)) "installationId" =
              some (toString x))) ∧
        ((ru.sourcePR = none →
            fieldGet (hgetall (updateJobRedis rst id ru now).2 (jobKey id)) "sourcePR" =
              fieldGet (hgetall rst (jobKey id)) "sourcePR") ∧
          (∀ x, ru.sourcePR = some x →
            fieldGet (hgetall (updateJobRedis rst id ru now).2 (jobKey id)) "sourcePR" =
              some (toString x))) ∧
        ((ru.targetBranch = none →
            fieldGet (hgetall (updateJobRedis rst id ru now).2 (jobKey id)) "targetBranch" =
              fieldGet (hgetall rst (jobKey id)) "targetBranch") ∧
          (∀ x, ru.targetBranch = some x →
            fieldGet (hgetall (updateJobRedis rst id ru now).2 (jobKey id)) "targetBranch" =
              some x)) ∧
        ((ru.status = none →
            fieldGet (hgetall (updateJobRedis rst id ru now).2 (jobKey id)) "status" =
              fieldGet (hgetall rst (jobKey id)) "status") ∧
          (∀ x, ru.status = some x →
            fieldGet (hgetall (updateJobRedis rst id ru now).2 (jobKey id)) "status" =
              some (statusToStr x))) ∧
        ((ru.requestedBy = none →
            fieldGet (hgetall (updateJobRedis rst id ru now).2 (jobKey id)) "requestedBy" =
              fieldGet (hgetall rst (jobKey id)) "requestedBy") ∧
          (∀ x, ru.requestedBy = some x →
            fieldGet (hgetall (updateJobRedis rst id ru now).2 (jobKey id)) "requestedBy" =
              some x)) ∧
        ((ru.commentId = none →
            fieldGet (hgetall (updateJobRedis rst id ru now).2 (jobKey id)) "commentId" =
              fieldGet (hgetall rst (jobKey id)) "commentId") ∧
          (∀ x, ru.commentId = some x →
            fieldGet (hgetall (updateJobRedis rst id ru now).2 (jobKey id)) "commentId" =
              some (toString x))) ∧
        ((ru.resultPR = none →
            fieldGet (hgetall (updateJobRedis rst id ru now).2 (jobKey id)) "resultPR" =
              fieldGet (hgetall rst (jobKey id)) "resultPR") ∧
          (∀ x, ru.resultPR = some x →
            fieldGet (hgetall (updateJobRedis rst id ru now).2 (jobKey id)) "resultPR" =
              some (toString x))) ∧
        ((ru.error = none →
            fieldGet (hgetall (updateJobRedis rst id ru now).2 (jobKey id)) "error" =
              fieldGet (hgetall rst (jobKey id)) "error") ∧
          (∀ x, ru.error = some x →
            fieldGet (hgetall (updateJobRedis rst id ru now).2 (jobKey id)) "error" =
              some x)))) := by
  refine ⟨?_, ?_, ?_⟩
  · intro j hj
    obtain ⟨hmem, hid⟩ := getJob_mem s id j hj
    subst hid
    refine ⟨applyUpdates j u now, ?_, ?_, rfl, rfl, rfl, ?_, ?_, ?_, ?_, ?_, ?_, ?_, ?_,
      ?_, ?_, ?_⟩
    · rw [updateJob, hj]
    · exact getJob_jobsSet_same s (applyUpdates j u now)
    · exact ⟨fun h => by simp [applyUpdates, h], fun x h => by simp [applyUpdates, h]⟩
    · exact ⟨fun h => by simp [applyUpdates, h], fun x h => by simp [applyUpdates, h]⟩
    · exact ⟨fun h => by simp [applyUpdates, h], fun x h => by simp [applyUpdates, h]⟩
    · exact ⟨fun h => by simp [applyUpdates, h], fun x h => by simp [applyUpdates, h]⟩
    · exact ⟨fun h => by simp [applyUpdates, h], fun x h => by simp [applyUpdates, h]⟩
    · exact ⟨fun h => by simp [applyUpdates, h], fun x h => by simp [applyUpdates, h]⟩
    · exact ⟨fun h => by simp [applyUpdates, h], fun x h => by simp [applyUpdates, h]⟩
    · exact ⟨fun h => by simp [applyUpdates, mergeOpt, h],
        fun x h => by simp [applyUpdates, mergeOpt, h]⟩
    · exact ⟨fun h => by simp [applyUpdates, mergeOpt, h],
        fun x h => by simp [applyUpdates, mergeOpt, h]⟩
    · exact ⟨fun h => by simp [applyUpdates, h], fun x h => by simp [applyUpdates, h]⟩
    · intro q hq
      exact getJob_jobsSet_ne s (applyUpdates j u now) q hq
  · intro hj
    rw [updateJob, hj]
  · intro rst ru
    refine ⟨?_, ?_⟩
    · intro h
      simp [updateJobRedis, h]
    · intro h
      have hrun : updateJobRedis rst id ru now =
          (some (mergedFields (hgetall rst (jobKey id)) ru now,
            lrangeAll (hsetRecord rst (jobKey id)
              (mergedFields (hgetall rst (jobKey id)) ru now)) (jobLogsKey id)),
           hsetRecord rst (jobKey id) (mergedFields (hgetall rst (jobKey id)) ru now)) := by
        simp [updateJobRedis, h]
      obtain ⟨m1, m2, m3, m4, m5, m6, m7, m8, m9, m10, m11, m12⟩ :=
        mergedFields_spec (hgetall rst (jobKey id)) ru now
      rw [hrun]
      dsimp only
      rw [hgetall_hsetRecord_same rst (jobKey id), lrangeAll_hsetRecord rst (jobKey id)]
      exact ⟨rfl, rfl, hsetRecord_lists rst (jobKey id) _,
        fun k hk => hgetall_hsetRecord_ne rst (jobKey id) _ k hk,
        m1, m2, m3, m4, m5, m6, m7, m8, m9, m10, m11, m12⟩

/-- A concrete one-record store for the C8 witness. -/
def jC8 : BackportJob :=
  { id := "a", repository := "octo/repo", installationId := 1, sourcePR := 2,
    targetBranch := "v1", status := .pending, createdAt := 3, updatedAt := 3,
    requestedBy := "u", commentId := 4, resultPR := none, error := none, logs := [] }

/-- Concrete updates for the C8 witness. -/
def uC8 : JobUpdates := { status := some .completed, resultPR := some 7 }

/-- Concrete Redis updates for the C8 witness. -/
def ruC8 : RedisJobUpdates := { status := some .completed, resultPR := some 7 }

/-- A concrete Redis state holding one job hash, for the C8 witness. -/
def rstC8 : RedisState :=
  { hashes := [("job:a",
      [("id", "a"), ("repository", "octo/repo"), ("createdAt", "3"),
       ("updatedAt", "3"), ("status", "pending")])] }

/-- Witness for C8 at a concrete store, id and update, for both
implementations. -/
theorem updateJob_frame_witness :
    getJob [jC8] "a" = some jC8 ∧
    (∃ j', updateJob [jC8] "a" uC8 5 = (some j', jobsSet [jC8] j') ∧
      getJob (jobsSet [jC8] j') "a" = some j' ∧
      j'.id = jC8.id ∧ j'.createdAt = jC8.createdAt ∧ j'.updatedAt = 5) ∧
    updateJobRedis {} "a" ruC8 5 = (none, {}) ∧
    hgetall (updateJobRedis rstC8 "a" ruC8 5).2 (jobKey "a") =
      mergedFields (hgetall rstC8 (jobKey "a")) ruC8 5 ∧
    fieldGet (hgetall (updateJobRedis rstC8 "a" ruC8 5).2 (jobKey "a")) "updatedAt" =
      some (toString 5) ∧
    fieldGet (hgetall (updateJobRedis rstC8 "a" ruC8 5).2 (jobKey "a")) "id" =
      fieldGet (hgetall rstC8 (jobKey "a")) "id" ∧
    fieldGet (hgetall (updateJobRedis rstC8 "a" ruC8 5).2 (jobKey "a")) "status" =
      some (statusToStr .completed) := by
  obtain ⟨j', h1, h2, h3, h4, h5, -⟩ :=
    (updateJob_frame [jC8] "a" uC8 5).1 jC8 rfl
  obtain ⟨hempty, -⟩ := (updateJob_frame [jC8] "a" uC8 5).2.2 {} ruC8
  obtain ⟨-, hfull⟩ := (updateJob_frame [jC8] "a" uC8 5).2.2 rstC8 ruC8
  obtain ⟨f1, f2, f3, f4, f5, f6, f7, f8, f9, f10, f11, f12, f13, f14, f15, f16⟩ :=
    hfull (by decide)
  exact ⟨rfl, ⟨j', h1, h2, h3, h4, h5⟩, hempty (by decide), f2, f7, f5,
    f12.2 .completed rfl⟩

/-! ### Claim C9: `listJobs` ordering, filtering and truncation -/

/-- The conjunctive filter actually applied by `listJobs`: an exact match
on `repository` — except that the empty string, being falsy, disables the
filter — and an exact match on `status`. -/
def filterB (rep : Option String) (st : Option JobStatus) (j : BackportJob) : Bool :=
  (match rep with
    | some r => if r = "" then true else j.repository == r
    | none => true) &&
  (match st with
    | some t => j.status == t
    | none => true)

/-- A concrete store record for the C9 counterexample. -/
def jC9 : BackportJob :=
  { id := "b", repository := "octo/repo", installationId := 1, sourcePR := 2,
    targetBranch := "v1", status := .pending, createdAt := 3, updatedAt := 3,
    requestedBy := "u", commentId := 4, resultPR := none, error := none, logs := [] }

/-- C9 counterexample: with a supplied `limit` of `0`, `listJobs` returns
the whole store instead of the first `0` entries, and with a supplied
`repository` filter of `""`, it returns a job whose repository is not
`""` — both because of JavaScript truthiness checks. -/
theorem listJobs_falsy_cex :
    listJobs [jC9] { limit := some 0 } = [jC9] ∧
    (List.take 0 (List.insertionSort createdAfter [jC9]) = []) ∧
    listJobs [jC9] { repository := some "" } = [jC9] ∧
    jC9.repository ≠ "" := by
  refine ⟨rfl, rfl, rfl, ?_⟩
  decide

/-- C9 as amended: both implementations return matching jobs in
`createdAt`-descending order without reordering on truncation, but treat
the limit differently.  In memory: the filtered store is sorted by
`createdAt` descending, the filters are conjunctive exact-match with the
empty-string repository filter ignored, a nonzero limit takes the first
`n` entries and a limit of `0` is ignored.  Redis: the ids come from the
`jobs:all` index read newest-score-first (`createJob` sets the score to
the creation time, the last conjunct), filtering keeps a subsequence of
that order with the same filter semantics, and the result is always
truncated to `options?.limit || 50` entries — a limit of `0` or an absent
limit truncates to `50`. -/
theorem listJobs_ordered (s : Store) (o : ListOptions) :
    List.Sorted createdAfter (listJobs s o) ∧
    (o.limit = none → List.Perm (listJobs s o) (s.filter (filterB o.repository o.status))) ∧
    (∀ n, o.limit = some n → n ≠ 0 →
      listJobs s o =
        (listJobs s { repository := o.repository, status := o.status, limit := none }).take n) ∧
    (∀ (index : List (Nat × String)) (rst : RedisState),
      List.Sorted (fun a b : Nat × String => b.1 ≤ a.1) (index.insertionSort idxGE) ∧
      List.Sublist
        ((redisFilteredIds index rst o.repository o.status).take (effLimit o.limit))
        (zrangeRev index) ∧
      (∀ id, id ∈ (redisFilteredIds index rst o.repository o.status).take (effLimit o.limit) →
        (hgetall rst (jobKey id)).isEmpty = false ∧
        (∀ r, o.repository = some r → r ≠ "" → jobField rst id "repository" = some r) ∧
        (∀ t, o.status = some t → jobField rst id "status" = some (statusToStr t))) ∧
      (∀ n, o.limit = some n → n ≠ 0 →
        listJobsRedis index rst o =
          ((redisFilteredIds index rst o.repository o.status).take n).map
            (fun id => (hgetall rst (jobKey id), lrangeAll rst (jobLogsKey id)))) ∧
      ((o.limit = some 0 ∨ o.limit = none) →
        listJobsRedis index rst o =
          ((redisFilteredIds index rst o.repository o.status).take 50).map
            (fun id => (hgetall rst (jobKey id), lrangeAll rst (jobLogsKey id))))) ∧
    (∀ (index : List (Nat × String)) (rst : RedisState) (cp : CreateParams)
        (jid : String) (now : Nat),
      (now, jid) ∈ (createJobRedis index rst cp jid now).1 ∧
      fieldGet (hgetall (createJobRedis index rst cp jid now).2 (jobKey jid)) "createdAt" =
        some (toString now) ∧
      fieldGet (hgetall (createJobRedis index rst cp jid now).2 (jobKey jid)) "status" =
        some "pending") := by
  rcases o with ⟨rep, st, limit⟩
  refine ⟨?_, ?_, ?_, ?_, ?_⟩
  · have hsorted : ∀ l : Store, List.Sorted createdAfter (l.insertionSort createdAfter) :=
      fun l => List.sorted_insertionSort createdAfter l
    rcases limit with - | n
    · exact hsorted _
    · by_cases hn : n = 0
      · simp only [listJobs, hn, if_true]
        exact hsorted _
      · simp only [listJobs, hn, if_false]
        exact List.Pairwise.sublist (List.take_sublist _ _) (hsorted _)
  · intro hl
    cases hl
    have hperm : ∀ l : Store, List.Perm (l.insertionSort createdAfter) l :=
      fun l => List.perm_insertionSort createdAfter l
    rcases rep with - | r
    · rcases st with - | t
      · simp only [listJobs]
        refine (hperm s).trans ?_
        rw [show s.filter (filterB none none) = s.filter (fun _ => true) from
          List.filter_congr (fun a _ => by simp [filterB]), List.filter_true]
      · simp only [listJobs]
        refine (hperm _).trans ?_
        rw [show s.filter (filterB none (some t)) = s.filter (fun j => j.status == t) from
          List.filter_congr (fun a _ => by simp [filterB])]
    · by_cases hr : r = ""
      · subst hr
        rcases st with - | t
        · simp only [listJobs, if_true]
          refine (hperm s).trans ?_
          rw [show s.filter (filterB (some "") none) = s.filter (fun _ => true) from
            List.filter_congr (fun a _ => by simp [filterB]), List.filter_true]
        · simp only [listJobs, if_true]
          refine (hperm _).trans ?_
          rw [show s.filter (filterB (some "") (some t)) = s.filter (fun j => j.status == t) from
            List.filter_congr (fun a _ => by simp [filterB])]
      · rcases st with - | t
        · simp only [listJobs, hr, if_false]
          refine (hperm _).trans ?_
          rw [show s.filter (filterB (some r) none) = s.filter (fun j => j.repository == r) from
            List.filter_congr (fun a _ => by simp [filterB, hr])]
        · simp only [listJobs, hr, if_false]
          refine (hperm _).trans ?_
          rw [List.filter_filter]
          rw [show s.filter (filterB (some r) (some t)) =
              s.filter (fun a => (a.status == t) && (a.repository == r)) from
            List.filter_congr (fun a _ => by simp [filterB, hr, Bool.and_comm])]
  · intro n hl hn
    cases hl
    simp only [listJobs, hn, if_false]
  · intro index rst
    refine ⟨sorted_idx_desc index, ?_, ?_, ?_, ?_⟩
    · exact (List.take_sublist _ _).trans (redisFilteredIds_sublist index rst rep st)
    · intro id hid
      exact redisFilteredIds_mem index rst rep st id (List.mem_of_mem_take hid)
    · intro n hl hn
      cases hl
      simp [listJobsRedis, effLimit, hn]
    · intro hl
      rcases hl with hl | hl <;> cases hl <;> rfl
  · intro index rst cp jid now
    refine ⟨?_, ?_, ?_⟩
    · simp [createJobRedis]
    · simp only [createJobRedis]
      rw [hgetall_hsetRecord_same]
      rfl
    · simp only [createJobRedis]
      rw [hgetall_hsetRecord_same]
      rfl

/-- A concrete index for the C9 witness. -/
def idxC9 : List (Nat × String) := [(1, "a"), (2, "b")]

/-- A concrete Redis state with two job hashes for the C9 witness. -/
def rstC9 : RedisState :=
  { hashes := [("job:a", [("id", "a")]), ("job:b", [("id", "b")])] }

/-- Witness for the amended C9 on concrete stores and filters, for both
implementations. -/
theorem listJobs_ordered_witness :
    List.Sorted createdAfter (listJobs [jC9] { limit := some 1 }) ∧
    listJobs [jC9] { limit := some 1 } =
      (listJobs [jC9] { repository := none, status := none, limit := none }).take 1 ∧
    List.Sorted (fun a b : Nat × String => b.1 ≤ a.1) (idxC9.insertionSort idxGE) ∧
    listJobsRedis idxC9 rstC9 { limit := some 1 } =
      ((redisFilteredIds idxC9 rstC9 none none).take 1).map
        (fun id => (hgetall rstC9 (jobKey id), lrangeAll rstC9 (jobLogsKey id))) ∧
    listJobsRedis idxC9 rstC9 { limit := some 0 } =
      ((redisFilteredIds idxC9 rstC9 none none).take 50).map
        (fun id => (hgetall rstC9 (jobKey id), lrangeAll rstC9 (jobLogsKey id))) := by
  refine ⟨(listJobs_ordered [jC9] { limit := some 1 }).1,
    (listJobs_ordered [jC9] { limit := some 1 }).2.2.1 1 rfl (by decide),
    ((listJobs_ordered [jC9] { limit := some 1 }).2.2.2.1 idxC9 rstC9).1,
    ((listJobs_ordered [jC9] { limit := some 1 }).2.2.2.1 idxC9 rstC9).2.2.2.1 1 rfl
      (by decide),
    ((listJobs_ordered [jC9] { limit := some 0 }).2.2.2.1 idxC9 rstC9).2.2.2.2
      (Or.inl rfl)⟩

/-! ### Claim C10: `addJobLog` on a missing id -/

/-- C10 counterexample (Redis store): on an id with no job record,
`addJobLog` blindly `RPUSH`es the log line and `HSET`s `updatedAt`,
creating the job hash — `getJob` returns absent before the call but
non-absent afterwards. -/
theorem addJobLogRedis_missing_id_cex :
    getJobRedis {} "x" = none ∧
    getJobRedis (addJobLogRedis {} "x" "hello" 0) "x" ≠ none := by
  refine ⟨rfl, ?_⟩
  decide

/-- C10 as amended: for the in-memory store, `addJobLog` on a missing id
raises no error and leaves the store completely unchanged, so `getJob`
still returns absent; for the Redis-backed store, the same call instead
creates the job hash (writing `updatedAt`) and the log list, after which
`getJob` no longer returns absent. -/
theorem addJobLog_missing_id (s : Store) (id message : String) (now : Nat)
    (h : getJob s id = none) :
    (addJobLog s id message now = s ∧ getJob (addJobLog s id message now) id = none) ∧
    (∀ (st : RedisState), getJobRedis (addJobLogRedis st id message now) id ≠ none) := by
  have hsame : addJobLog s id message now = s := by
    rw [addJobLog, h]
  refine ⟨⟨hsame, by rw [hsame]; exact h⟩, ?_⟩
  intro st hcon
  rw [getJobRedis] at hcon
  have hne : hgetall (addJobLogRedis st id message now) (jobKey id) ≠ [] := by
    rw [addJobLogRedis]
    exact hgetall_hsetField_ne_nil _ (jobKey id) "updatedAt" (toString now)
  rw [if_neg (by simpa [List.isEmpty_iff] using hne)] at hcon
  cases hcon

/-- Witness for the amended C10 at a concrete id and store. -/
theorem addJobLog_missing_id_witness :
    getJob [] "x" = none ∧
    (addJobLog [] "x" "hello" 0 = [] ∧ getJob (addJobLog [] "x" "hello" 0) "x" = none) ∧
    getJobRedis (addJobLogRedis {} "x" "hello" 0) "x" ≠ none := by
  have h := addJobLog_missing_id [] "x" "hello" 0 rfl
  exact ⟨rfl, h.1, h.2 {}⟩

/-! ### Helpers for the workflow claims -/

theorem applyOps_append (s : Store) (now : Nat) (l1 l2 : List StoreOp) :
    applyOps s now (l1 ++ l2) = applyOps (applyOps s now l1) now l2 := by
  rw [applyOps, applyOps, applyOps, List.foldl_append]

theorem applyOps_cons (s : Store) (now : Nat) (op : StoreOp) (l : List StoreOp) :
    applyOps s now (op :: l) = applyOps (applyOp s now op) now l := rfl

/-- A freshly created job reads back as `pending` with neither payload
field. -/
theorem createJob_getProj (s : Store) (cp : CreateParams) (id : String) (now : Nat) :
    getProj (createJob s cp id now).2 id = some (.pending, none, none) := by
  rw [createJob, getProj]
  rw [show ((jobsSet s
      { id := id, repository := cp.repository, installationId := cp.installationId,
        sourcePR := cp.sourcePR, targetBranch := cp.targetBranch, status := .pending,
        createdAt := now, updatedAt := now, requestedBy := cp.requestedBy,
        commentId := cp.commentId, resultPR := none, error := none, logs := [] })) =
    jobsSet s
      { id := id, repository := cp.repository, installationId := cp.installationId,
        sourcePR := cp.sourcePR, targetBranch := cp.targetBranch, status := .pending,
        createdAt := now, updatedAt := now, requestedBy := cp.requestedBy,
        commentId := cp.commentId, resultPR := none, error := none, logs := [] } from rfl]
  rw [getJob_jobsSet_same]
  rfl

/-- The created store satisfies the store invariant when the base store
does. -/
theorem createJob_storeInv (s : Store) (cp : CreateParams) (id : String) (now : Nat)
    (h : StoreInv s) : StoreInv (createJob s cp id now).2 := by
  intro x hx
  rcases mem_jobsSet _ _ _ hx with hmem | heq
  · exact h x hmem
  · subst heq
    exact ⟨fun _ => ⟨rfl, rfl⟩, fun hcon => by rcases hcon with hc | hc <;> cases hc⟩

/-- The empty durable table trivially satisfies any cache contract. -/
theorem cacheOK_empty (Q : StepId → Val → Prop) : CacheOK Q {} := by
  intro sid v h
  cases sid <;> cases h

/-- Projection after logs, one update, and more logs. -/
theorem getProj_logs_update_logs (s : Store) (now : Nat) (id : String) (u : JobUpdates)
    (A C : List StoreOp) (hA : ∀ op ∈ A, op.isLog = true) (hC : ∀ op ∈ C, op.isLog = true) :
    getProj (applyOps s now (A ++ StoreOp.update id u :: C)) id =
      (getProj s id).map (fun t => projUpd t u) := by
  rw [applyOps_append, applyOps_cons, logsOnly_getProj now C hC, getProj_update_same,
    logsOnly_getProj now A hA]

theorem retryLoop_first_ok (body : StepBody) (n i : Nat) (w : World) (v : Val) (w' : World)
    (hb : body i w = (.ok v, w')) : retryLoop body (n + 1) i w = (.ok v, w', 1) := by
  rw [retryLoop, hb]

theorem retryLoop_first_fatal (body : StepBody) (n i : Nat) (w : World) (m : String)
    (w' : World) (hb : body i w = (.error (.fatal m), w')) :
    retryLoop body (n + 1) i w = (.error (.fatal m), w', 1) := by
  rw [retryLoop, hb]

/-- The forward order on job statuses: what a status may later become. -/
def statusForward (a b : JobStatus) : Prop :=
  match a with
  | .pending => True
  | .in_progress => b ≠ .pending
  | .completed => b = .completed
  | .failed => b = .failed

theorem statusForward_refl (a : JobStatus) : statusForward a a := by
  cases a <;> simp [statusForward]

theorem applyOps_nil (s : Store) (now : Nat) : applyOps s now [] = s := rfl

theorem getProj_applyOp_log (s : Store) (now : Nat) (id m q : String) :
    getProj (applyOp s now (.log id m)) q = getProj s q :=
  getProj_addJobLog s id m now q

/-! ### Claim C5: a missing target branch aborts the run fatally -/

/-- C5: when every `getBranch` call fails (the target branch does not
exist), `validateTargetBranch` raises `FatalError`: the run throws with
the fatal message, the validate step makes exactly one attempt (no
retries), no later step body is ever invoked, the job ends `failed` with
the fatal message as its `error`, and that message contains the target
branch name. -/
theorem validateTargetBranch_fatal (env : Env) (p : BackportParams) (n : Nat)
    (d : PRDetails) (e0 : StepError)
    (hAck : ∀ i, env.ack i = .ok ()) (hFetch : ∀ i, env.fetch i = .ok d)
    (hBr : ∀ i, env.getBranch i = .error e0) :
    (exec (n + 1) (orchestrator env p) {} {} {} none).out =
      .finished (.error ("Target branch \x27" ++ p.targetBranch ++ "\x27 does not exist")) ∧
    (exec (n + 1) (orchestrator env p) {} {} {} none).counts.validate = 1 ∧
    (exec (n + 1) (orchestrator env p) {} {} {} none).counts.analyze = 0 ∧
    (exec (n + 1) (orchestrator env p) {} {} {} none).counts.perform = 0 ∧
    (exec (n + 1) (orchestrator env p) {} {} {} none).counts.createPR = 0 ∧
    (exec (n + 1) (orchestrator env p) {} {} {} none).counts.reportSuccess = 0 ∧
    (exec (n + 1) (orchestrator env p) {} {} {} none).counts.reportFailure = 0 ∧
    (∀ (s₀ : Store) (cp : CreateParams) (now now' : Nat),
      getProj (applyOps (createJob s₀ cp p.jobId now).2 now'
          (exec (n + 1) (orchestrator env p) {} {} {} none).ops) p.jobId =
        some (.failed, none,
          some ("Target branch \x27" ++ p.targetBranch ++ "\x27 does not exist"))) ∧
    (∃ pre suf, ("Target branch \x27" ++ p.targetBranch ++ "\x27 does not exist") =
      pre ++ p.targetBranch ++ suf) := by
  simp only [orchestrator, fetchStage, validateStage, analyzeStage, performStage,
    exec, retryLoop, ackBody, fetchBody, validateBody, hAck, hFetch, hBr,
    StepCache.get, StepCache.set, Counts.bump, Counts.get, StepError.message,
    catchProg, Option.map_none]
  refine ⟨by simp, by simp, by simp, by simp, by simp, by simp, by simp, ?_, ?_⟩
  · intro s₀ cp now now'
    simp [applyOps_cons, applyOps_nil, getProj_update_same, getProj_applyOp_log,
      createJob_getProj, projUpd, mergeOpt]
  · exact ⟨"Target branch \x27", "\x27 does not exist", rfl⟩

/-- Fixed PR details used by the concrete collaborator oracles. -/
def dX : PRDetails :=
  ⟨"Fix bug", some "body", "main", "feat", "sha1", [⟨"c1", "m1"⟩], true, some "mc",
    ["diff --git a b"]⟩

/-- A collaborator oracle for which every operation succeeds. -/
def okEnv : Env :=
  { ack := fun _ => .ok ()
    fetch := fun _ => .ok dX
    getBranch := fun _ => .ok ()
    perform := fun _ => ⟨true, some "backport-branch", none⟩
    createPR := fun _ => .ok 77
    successComment := fun _ => .ok ()
    failureComment := fun _ => .ok () }

/-- Fixed workflow parameters for the concrete runs. -/
def pX : BackportParams := ⟨"job1", 5, "octo/repo", 42, "v1", 9⟩

/-- Matching job-creation parameters. -/
def cpX : CreateParams := ⟨"octo/repo", 5, 42, "v1", "alice", 9⟩

/-- Oracle whose `getBranch` always fails (branch absent). -/
def envC5 : Env := { okEnv with getBranch := fun _ => .error (.fatal "404 Not Found") }

/-- Witness for C5 at a concrete oracle. -/
theorem validateTargetBranch_fatal_witness :
    (exec 1 (orchestrator envC5 pX) {} {} {} none).out =
      .finished (.error ("Target branch \x27" ++ "v1" ++ "\x27 does not exist")) ∧
    (exec 1 (orchestrator envC5 pX) {} {} {} none).counts.validate = 1 ∧
    (exec 1 (orchestrator envC5 pX) {} {} {} none).counts.analyze = 0 := by
  have h := validateTargetBranch_fatal envC5 pX 0 dX (.fatal "404 Not Found")
    (fun _ => rfl) (fun _ => rfl) (fun _ => rfl)
  exact ⟨h.1, h.2.1, h.2.2.1⟩

/-! ### Claim C6: a `performBackport` failure value is a business outcome -/

/-- C6: when `performBackport` returns `{success: false, error: e}`, the
run creates no pull request (the `createBackportPR` step never runs and
the collaborator records no PR), posts exactly one failure comment whose
body contains `e`, sets the job to `failed` with `error = e`, and the
workflow RETURNS the failure value — the run finishes with
`Except.ok {success := false, error := some e}` rather than a thrown
error. -/
theorem performBackport_failure_value (env : Env) (p : BackportParams) (n : Nat)
    (d : PRDetails) (errMsg : String) (br : Option String)
    (hAck : ∀ i, env.ack i = .ok ()) (hFetch : ∀ i, env.fetch i = .ok d)
    (hBr : ∀ i, env.getBranch i = .ok ())
    (hPerf : ∀ i, env.perform i = ⟨false, br, some errMsg⟩)
    (hFail : ∀ i, env.failureComment i = .ok ()) :
    (exec (n + 1) (orchestrator env p) {} {} {} none).out =
      .finished (.ok { success := false, resultPR := none, error := some errMsg }) ∧
    (exec (n + 1) (orchestrator env p) {} {} {} none).world.prsCreated = [] ∧
    (exec (n + 1) (orchestrator env p) {} {} {} none).counts.createPR = 0 ∧
    (exec (n + 1) (orchestrator env p) {} {} {} none).counts.reportSuccess = 0 ∧
    (exec (n + 1) (orchestrator env p) {} {} {} none).world.comments =
      [(p.prNumber, failureCommentBody p.targetBranch errMsg)] ∧
    (∃ pre suf, failureCommentBody p.targetBranch errMsg = pre ++ errMsg ++ suf) ∧
    (∀ (s₀ : Store) (cp : CreateParams) (now now' : Nat),
      getProj (applyOps (createJob s₀ cp p.jobId now).2 now'
          (exec (n + 1) (orchestrator env p) {} {} {} none).ops) p.jobId =
        some (.failed, none, some errMsg)) := by
  refine ⟨?_, ?_, ?_, ?_, ?_, ?_, ?_⟩
  all_goals try simp [orchestrator, fetchStage, validateStage, analyzeStage, performStage,
    failureBranch, successBranch, exec, retryLoop, ackBody, fetchBody, validateBody,
    performBody, reportFailureBody, hAck, hFetch, hBr, hPerf, hFail, Val.asPerf,
    StepCache.get, StepCache.set, Counts.bump, Counts.get, StepError.message,
    catchProg, Option.map_none, Option.getD_some, Bool.false_eq_true, if_false]
  · exact ⟨"❌ Failed to backport to \x60" ++ p.targetBranch ++ "\x60.\n\n**Error:** ",
      "\n\nPlease try backporting manually.",
      by simp [failureCommentBody, String.append_assoc]⟩
  · intro s₀ cp now now'
    simp [applyOps_cons, applyOps_nil, getProj_update_same, getProj_applyOp_log,
      createJob_getProj, projUpd, mergeOpt]

/-- Oracle whose sandbox backport reports a merge conflict as a value. -/
def envC6 : Env :=
  { okEnv with perform := fun _ => ⟨false, none, some "merge conflict in x.go"⟩ }

/-- Witness for C6 at a concrete oracle: the spec's merge-conflict
scenario. -/
theorem performBackport_failure_value_witness :
    (exec 2 (orchestrator envC6 pX) {} {} {} none).out =
      .finished
        (.ok { success := false, resultPR := none, error := some "merge conflict in x.go" }) ∧
    (exec 2 (orchestrator envC6 pX) {} {} {} none).world.prsCreated = [] ∧
    (∃ pre suf,
      failureCommentBody "v1" "merge conflict in x.go" =
        pre ++ "merge conflict in x.go" ++ suf) := by
  have h := performBackport_failure_value envC6 pX 1 dX "merge conflict in x.go" none
    (fun _ => rfl) (fun _ => rfl) (fun _ => rfl) (fun _ => rfl) (fun _ => rfl)
  exact ⟨h.1, h.2.1, h.2.2.2.2.2.1⟩

/-! ### Claim C3: an Acknowledge failure is NOT best-effort -/

/-- Oracle whose comment reaction always fails fatally. -/
def envC3 : Env := { okEnv with ack := fun _ => .error (.fatal "boom") }

/-- C3 counterexample: with an oracle whose reaction call fails, the run
does NOT continue — no later step body is ever invoked, the workflow
re-throws the error, and the job is set to `failed` — contradicting the
claim that an Acknowledge failure is only logged and the run continues. -/
theorem acknowledge_failure_cex :
    (exec 3 (orchestrator envC3 pX) {} {} {} none).counts.fetch = 0 ∧
    (exec 3 (orchestrator envC3 pX) {} {} {} none).counts.validate = 0 ∧
    (exec 3 (orchestrator envC3 pX) {} {} {} none).counts.perform = 0 ∧
    (exec 3 (orchestrator envC3 pX) {} {} {} none).out = .finished (.error "boom") ∧
    getProj (applyOps (createJob [] cpX "job1" 0).2 1
        (exec 3 (orchestrator envC3 pX) {} {} {} none).ops) "job1" =
      some (.failed, none, some "boom") :=
  ⟨rfl, rfl, rfl, rfl, rfl⟩

/-- C3 as amended: `acknowledgeRequest` has no `try`/`catch` of its own, so
when the Acknowledge step fails (here: with a fatal error), the error
propagates to `backportPullRequest`'s top-level `catch`, which logs it,
sets the job to `failed` with the error message, and re-throws; no later
step body runs.  The failure is not best-effort. -/
theorem acknowledge_failure_aborts (env : Env) (p : BackportParams) (n : Nat)
    (m : String) (hAck : ∀ i, env.ack i = .error (.fatal m)) :
    (exec (n + 1) (orchestrator env p) {} {} {} none).out = .finished (.error m) ∧
    (exec (n + 1) (orchestrator env p) {} {} {} none).counts.ack = 1 ∧
    (exec (n + 1) (orchestrator env p) {} {} {} none).counts.fetch = 0 ∧
    (exec (n + 1) (orchestrator env p) {} {} {} none).counts.validate = 0 ∧
    (exec (n + 1) (orchestrator env p) {} {} {} none).counts.analyze = 0 ∧
    (exec (n + 1) (orchestrator env p) {} {} {} none).counts.perform = 0 ∧
    (exec (n + 1) (orchestrator env p) {} {} {} none).counts.createPR = 0 ∧
    (exec (n + 1) (orchestrator env p) {} {} {} none).counts.reportSuccess = 0 ∧
    (exec (n + 1) (orchestrator env p) {} {} {} none).counts.reportFailure = 0 ∧
    (∀ (s₀ : Store) (cp : CreateParams) (now now' : Nat),
      getProj (applyOps (createJob s₀ cp p.jobId now).2 now'
          (exec (n + 1) (orchestrator env p) {} {} {} none).ops) p.jobId =
        some (.failed, none, some m)) := by
  simp only [orchestrator, exec, retryLoop, ackBody, hAck,
    StepCache.get, StepCache.set, Counts.bump, Counts.get, StepError.message,
    catchProg, Option.map_none]
  refine ⟨by simp, by simp, by simp, by simp, by simp, by simp, by simp, by simp,
    by simp, ?_⟩
  intro s₀ cp now now'
  simp [applyOps_cons, applyOps_nil, getProj_update_same, getProj_applyOp_log,
    createJob_getProj, projUpd, mergeOpt]

/-- Witness for the amended C3 at a concrete oracle. -/
theorem acknowledge_failure_aborts_witness :
    (exec 2 (orchestrator envC3 pX) {} {} {} none).out = .finished (.error "boom") ∧
    (exec 2 (orchestrator envC3 pX) {} {} {} none).counts.ack = 1 ∧
    (exec 2 (orchestrator envC3 pX) {} {} {} none).counts.fetch = 0 := by
  have h := acknowledge_failure_aborts envC3 pX 1 "boom" (fun _ => rfl)
  exact ⟨h.1, h.2.1, h.2.2.1⟩

/-! ### Claim C4: transient `getBranch` failures are swallowed as fatal -/

/-- Oracle whose `getBranch` returns a transient 502 on the first two
attempts and succeeds from the third on — the spec's retry scenario. -/
def envC4 : Env :=
  { okEnv with
    getBranch := fun i => if i < 2 then .error (.transient "502 Bad Gateway") else .ok () }

/-- The spec scenario's parameters, targeting branch `release-1.2`. -/
def pC4 : BackportParams := { pX with targetBranch := "release-1.2" }

/-- C4 (code bug): on the spec's "502 twice, then success" scenario — with
a retry ceiling of 5, ample for 3 attempts — the run does NOT retry and
complete: `validateTargetBranch`'s catch-all converts the first transient
502 into `FatalError "Target branch 'release-1.2' does not exist"`, so
the step makes exactly 1 attempt, no later step runs, and the job ends
`failed` with the misleading branch-does-not-exist message. -/
theorem validateTargetBranch_transient_bug :
    (exec 5 (orchestrator envC4 pC4) {} {} {} none).out =
      .finished (.error ("Target branch \x27release-1.2\x27 does not exist")) ∧
    (exec 5 (orchestrator envC4 pC4) {} {} {} none).counts.validate = 1 ∧
    (exec 5 (orchestrator envC4 pC4) {} {} {} none).counts.analyze = 0 ∧
    (exec 5 (orchestrator envC4 pC4) {} {} {} none).counts.perform = 0 ∧
    getProj (applyOps (createJob [] cpX "job1" 0).2 1
        (exec 5 (orchestrator envC4 pC4) {} {} {} none).ops) "job1" =
      some (.failed, none, some ("Target branch \x27release-1.2\x27 does not exist")) :=
  ⟨rfl, rfl, rfl, rfl, rfl⟩

/-! ### Claim C1: interruption and replay -/

/-- C1: if a run is interrupted at any step boundary and then re-driven
with the same collaborator oracle, then (i) no step whose result was
already durably recorded has its body invoked again during the replay —
its invocation count is unchanged; (ii) the replay reaches exactly the
uninterrupted run's outcome, collaborator world and durable table; and
(iii) the job record seen through the combined store trace (interrupted
prefix followed by the full replay trace) has the same status, `resultPR`
and `error` as after an uninterrupted run. -/
theorem backport_replay_equivalent (env : Env) (p : BackportParams) (ceiling k : Nat)
    (h : (exec ceiling (orchestrator env p) {} {} {} (some k)).out = .interrupted) :
    let r₁ := exec ceiling (orchestrator env p) {} {} {} (some k)
    let r₂ := exec ceiling (orchestrator env p) r₁.cache r₁.counts r₁.world none
    let r := exec ceiling (orchestrator env p) {} {} {} none
    (∀ sid, (r₁.cache.get sid).isSome = true →
      r₂.counts.get sid = r₁.counts.get sid) ∧
    r₂.out = r.out ∧ r₂.world = r.world ∧ r₂.cache = r.cache ∧
    (∀ (s₀ : Store) (now : Nat),
      getProj (applyOps s₀ now (r₁.ops ++ r₂.ops)) p.jobId =
        getProj (applyOps s₀ now r.ops) p.jobId) := by
  intro r₁ r₂ r
  have hre : r₂ = r := replay_eq ceiling (orchestrator env p) {} {} {} k h
  refine ⟨?_, by rw [hre], by rw [hre], by rw [hre], ?_⟩
  · intro sid hs
    exact counterFreeze ceiling (orchestrator env p) r₁.cache r₁.counts r₁.world none sid hs
  · intro s₀ now
    have hlogs : ∀ op ∈ r₁.ops, op.isLog = true :=
      updLast_interrupted ceiling (orchestrator env p) (orchestrator_updLast env p)
        {} {} {} k h
    rw [applyOps_append]
    have hcong := applyOps_proj_congr now r₂.ops (applyOps s₀ now r₁.ops) s₀
      (fun q => logsOnly_getProj now r₁.ops hlogs s₀ q) p.jobId
    rw [hcong, hre]

/-- Witness for C1: interrupting the all-success run after its second step
and replaying reaches the uninterrupted outcome. -/
theorem backport_replay_equivalent_witness :
    (exec 3 (orchestrator okEnv pX) {} {} {} (some 2)).out = .interrupted ∧
    (exec 3 (orchestrator okEnv pX)
        (exec 3 (orchestrator okEnv pX) {} {} {} (some 2)).cache
        (exec 3 (orchestrator okEnv pX) {} {} {} (some 2)).counts
        (exec 3 (orchestrator okEnv pX) {} {} {} (some 2)).world none).out =
      (exec 3 (orchestrator okEnv pX) {} {} {} none).out := by
  refine ⟨rfl, ?_⟩
  have h := backport_replay_equivalent okEnv pX 3 2 rfl
  exact h.2.1

/-! ### Claim C2: terminal jobs carry exactly one payload field -/

/-- C2: starting from any invariant-satisfying store into which the run's
job has just been created (under a fresh id), every store state along the
run's operation trace — after any prefix of the operations, for any
interruption point — satisfies the invariant: a `pending`/`in_progress`
record carries neither `resultPR` nor `error`, and a `completed`/`failed`
record carries exactly one of them. -/
theorem backport_terminal_invariant (env : Env) (p : BackportParams) (ceiling : Nat)
    (intr : Option Nat) (hwf : WfEnv env) (s₀ : Store) (cp : CreateParams)
    (now now' : Nat) (hinv : StoreInv s₀) :
    StoreInv (createJob s₀ cp p.jobId now).2 ∧
    (∀ l₁ l₂, (exec ceiling (orchestrator env p) {} {} {} intr).ops = l₁ ++ l₂ →
      StoreInv (applyOps (createJob s₀ cp p.jobId now).2 now' l₁)) := by
  have hinv₁ : StoreInv (createJob s₀ cp p.jobId now).2 :=
    createJob_storeInv s₀ cp p.jobId now hinv
  refine ⟨hinv₁, ?_⟩
  intro l₁ l₂ hsplit
  rcases updLast_shape ceiling (orchestrator env p) (orchestrator_updLast env p)
      {} {} {} intr with hall | ⟨A, id, u, B, hops, hA, hB⟩
  · refine logsOnly_storeInv now' l₁ ?_ _ hinv₁
    intro op hop
    exact hall op (hsplit ▸ List.mem_append_left l₂ hop)
  · have hPu : PGood p.jobId id u :=
      updWf_exec ceiling (PGood p.jobId) (Qenv env) (orchestrator env p)
        (orchestrator_updWf env p hwf) {} {} {} intr (cacheOK_empty (Qenv env)) id u
        (by rw [hops]; exact List.mem_append_right A (List.mem_cons_self _ B))
    obtain ⟨hid, hgood⟩ := hPu
    subst hid
    have heq : l₁ ++ l₂ = A ++ (StoreOp.update p.jobId u :: B) := by rw [← hsplit, hops]
    rcases List.append_eq_append_iff.mp heq with ⟨a', hA', hl₂⟩ | ⟨c', hl₁, hrest⟩
    · refine logsOnly_storeInv now' l₁ ?_ _ hinv₁
      intro op hop
      exact hA op (hA' ▸ List.mem_append_left a' hop)
    · cases c' with
      | nil =>
        rw [List.append_nil] at hl₁
        subst hl₁
        exact logsOnly_storeInv now' l₁ hA _ hinv₁
      | cons x c'' =>
        rw [List.cons_append] at hrest
        obtain ⟨hx1, hx2⟩ := List.cons.inj hrest
        subst hl₁
        rw [← hx1]
        rw [applyOps_append, applyOps_cons]
        have hc'' : ∀ op ∈ c'', op.isLog = true := fun op hop =>
          hB op (hx2 ▸ List.mem_append_left l₂ hop)
        refine logsOnly_storeInv now' c'' hc'' _ ?_
        refine update_storeInv _ p.jobId u now'
          (logsOnly_storeInv now' A hA _ hinv₁) hgood ?_
        intro j hj
        have hproj : getProj (applyOps (createJob s₀ cp p.jobId now).2 now' A) p.jobId =
            some (.pending, none, none) := by
          rw [logsOnly_getProj now' A hA, createJob_getProj]
        rw [getProj, hj] at hproj
        have hpj := Option.some.inj hproj
        exact ⟨congrArg (fun t => t.2.1) hpj, congrArg (fun t => t.2.2) hpj⟩

/-- Witness for C2 on the all-success oracle starting from the empty
store. -/
theorem backport_terminal_invariant_witness :
    StoreInv (createJob [] cpX pX.jobId 0).2 ∧
    StoreInv (applyOps (createJob [] cpX pX.jobId 0).2 1
      (exec 3 (orchestrator okEnv pX) {} {} {} none).ops) := by
  have h := backport_terminal_invariant okEnv pX 3 none
    (fun i hcon => Bool.noConfusion hcon) [] cpX 0 1
    (fun j hj => absurd hj (List.not_mem_nil j))
  exact ⟨h.1, h.2 (exec 3 (orchestrator okEnv pX) {} {} {} none).ops []
    (by rw [List.append_nil])⟩

/-! ### Claim C7: job status only moves forward -/

/-- Reading a record's status is reading the first component of its
projection. -/
theorem statusOf_getProj (s : Store) (q : String) :
    (getJob s q).map (fun j => j.status) = (getProj s q).map (fun t => t.1) := by
  rw [getProj]
  cases getJob s q <;> rfl

/-- A trace containing no update on `q` leaves `q`'s projection alone. -/
theorem noUpdateOn_getProj (now : Nat) (q : String) :
    ∀ (l : List StoreOp), (∀ u', StoreOp.update q u' ∉ l) →
      ∀ (s : Store), getProj (applyOps s now l) q = getProj s q := by
  intro l
  induction l with
  | nil => intro _ s; rfl
  | cons op t ih =>
    intro h s
    have ht : ∀ u', StoreOp.update q u' ∉ t := fun u' hmem =>
      h u' (List.mem_cons_of_mem op hmem)
    cases op with
    | log id msg =>
      rw [applyOps_cons, ih ht, getProj_applyOp_log]
    | update id u =>
      have hne : q ≠ id := by
        intro hqe
        subst hqe
        exact h u (List.mem_cons_self _ t)
      rw [applyOps_cons, ih ht, getProj_update_ne _ _ _ _ _ hne]

/-- C7: along any run of the workflow over a store into which the run's
job was just created, the job's status moves only forward: between any
prefix of the operation trace and any longer prefix, the pair of observed
statuses is a forward transition — never back to `pending`, never between
`completed` and `failed`. -/
theorem backport_status_monotone (env : Env) (p : BackportParams) (ceiling : Nat)
    (intr : Option Nat) (s₀ : Store) (cp : CreateParams) (now now' : Nat) :
    ∀ l₁ l₂ l₃, (exec ceiling (orchestrator env p) {} {} {} intr).ops = l₁ ++ (l₂ ++ l₃) →
      ∀ a b,
        (getJob (applyOps (createJob s₀ cp p.jobId now).2 now' l₁) p.jobId).map
            (fun j => j.status) = some a →
        (getJob (applyOps (createJob s₀ cp p.jobId now).2 now' (l₁ ++ l₂)) p.jobId).map
            (fun j => j.status) = some b →
        statusForward a b := by
  intro l₁ l₂ l₃ hsplit a b ha hb
  rw [statusOf_getProj] at ha hb
  rcases updLast_shape ceiling (orchestrator env p) (orchestrator_updLast env p)
      {} {} {} intr with hall | ⟨A, id, u, B, hops, hA, hB⟩
  · have hl₁ : ∀ op ∈ l₁, op.isLog = true := fun op hop =>
      hall op (hsplit ▸ List.mem_append_left _ hop)
    rw [logsOnly_getProj now' l₁ hl₁, createJob_getProj] at ha
    obtain rfl : JobStatus.pending = a := Option.some.inj ha
    exact trivial
  · by_cases hid : id = p.jobId
    · subst hid
      have heq : l₁ ++ (l₂ ++ l₃) = A ++ (StoreOp.update p.jobId u :: B) := by
        rw [← hsplit, hops]
      rcases List.append_eq_append_iff.mp heq with ⟨a', hA', hl₂⟩ | ⟨c', hl₁, hrest⟩
      · have hl₁logs : ∀ op ∈ l₁, op.isLog = true := fun op hop =>
          hA op (hA' ▸ List.mem_append_left a' hop)
        rw [logsOnly_getProj now' l₁ hl₁logs, createJob_getProj] at ha
        obtain rfl : JobStatus.pending = a := Option.some.inj ha
        exact trivial
      · cases c' with
        | nil =>
          rw [List.append_nil] at hl₁
          subst hl₁
          rw [logsOnly_getProj now' l₁ hA, createJob_getProj] at ha
          obtain rfl : JobStatus.pending = a := Option.some.inj ha
          exact trivial
        | cons x c'' =>
          rw [List.cons_append] at hrest
          obtain ⟨hx1, hx2⟩ := List.cons.inj hrest
          subst hl₁
          have hc'' : ∀ op ∈ c'', op.isLog = true := fun op hop =>
            hB op (hx2 ▸ List.mem_append_left _ hop)
          have hc''l₂ : ∀ op ∈ c'' ++ l₂, op.isLog = true := by
            intro op hop
            rcases List.mem_append.mp hop with hop' | hop'
            · exact hc'' op hop'
            · refine hB op (hx2 ▸ ?_)
              exact List.mem_append_right c'' (List.mem_append_left l₃ hop')
          rw [← hx1] at ha hb
          rw [getProj_logs_update_logs _ _ _ _ A c'' hA hc'', createJob_getProj] at ha
          have hb' : ((A ++ StoreOp.update p.jobId u :: c'') ++ l₂) =
              A ++ StoreOp.update p.jobId u :: (c'' ++ l₂) := by
            rw [List.append_assoc, List.cons_append]
          rw [hb', getProj_logs_update_logs _ _ _ _ A (c'' ++ l₂) hA hc''l₂,
            createJob_getProj] at hb
          obtain rfl := Option.some.inj ha
          obtain rfl := Option.some.inj hb
          exact statusForward_refl _
    · have hnoupd : ∀ (l : List StoreOp), (∀ op ∈ l, op ∈ l₁ ++ (l₂ ++ l₃)) →
          ∀ u', StoreOp.update p.jobId u' ∉ l := by
        intro l hsub u' hmem
        have hmem' : StoreOp.update p.jobId u' ∈ A ++ (StoreOp.update id u :: B) := by
          rw [← hops, hsplit]
          exact hsub _ hmem
        rcases List.mem_append.mp hmem' with hin | hin
        · have := hA _ hin
          cases this
        · rcases List.mem_cons.mp hin with hin' | hin'
          · obtain ⟨h1, h2⟩ := StoreOp.update.inj hin'
            exact hid h1.symm
          · have := hB _ hin'
            cases this
      rw [noUpdateOn_getProj now' p.jobId l₁
        (hnoupd l₁ (fun op hop => List.mem_append_left _ hop)), createJob_getProj] at ha
      obtain rfl : JobStatus.pending = a := Option.some.inj ha
      exact trivial

/-- Witness for C7 on the all-success oracle: the empty prefix shows
`pending`, the full trace shows `completed`, and that pair is forward. -/
theorem backport_status_monotone_witness :
    (getJob (applyOps (createJob [] cpX pX.jobId 0).2 1 []) pX.jobId).map
        (fun j => j.status) = some .pending ∧
    (getJob (applyOps (createJob [] cpX pX.jobId 0).2 1
        ([] ++ (exec 3 (orchestrator okEnv pX) {} {} {} none).ops)) pX.jobId).map
        (fun j => j.status) = some .completed ∧
    statusForward .pending .completed := by
  refine ⟨rfl, rfl, ?_⟩
  exact backport_status_monotone okEnv pX 3 none [] cpX 0 1 []
    (exec 3 (orchestrator okEnv pX) {} {} {} none).ops [] (by simp)
    JobStatus.pending JobStatus.completed rfl rfl

end Backport
